import Mathlib

/-!
# Verification of the s3db document store

A shallow embedding of the `S3db` class (the canonical implementation with the
static factory entry point) together with the configuration resolver
`getS3dbConfig` from `src/util.ts`.  The object-storage service itself is an
external collaborator; its list/get/put/delete primitives are modelled as pure
functions over an explicit key/value store.  Machine-level aspects that do not
shallow-embed (floating point JSON numbers, wall-clock timestamps, the UUID
generator, concurrent fan-out) are modelled as parameters: numbers are
integers, timestamps are passed in, the fresh UUID is an oracle argument, and
`Promise.all` over independent keys is sequential composition.
-/

mutual

/-- JSON values as stored in document bodies.  Numbers are modelled as
integers (fractional doubles do not shallow-embed).  Arrays and objects are
separate mutual inductives so that structural induction over nested values is
direct. -/
inductive Json where
  | null : Json
  | bool (b : Bool) : Json
  | num (n : Int) : Json
  | str (s : String) : Json
  | arr (elems : JsonArr) : Json
  | obj (fields : JsonObj) : Json
deriving DecidableEq

/-- A JSON array: a list of values. -/
inductive JsonArr where
  | nil : JsonArr
  | cons (hd : Json) (tl : JsonArr) : JsonArr
deriving DecidableEq

/-- A JSON object: an insertion-ordered list of string-keyed fields. -/
inductive JsonObj where
  | nil : JsonObj
  | cons (k : String) (v : Json) (tl : JsonObj) : JsonObj
deriving DecidableEq

end

/-- JavaScript truthiness of a JSON value (`!document.id` in the source):
`null`, `false`, `0` and the empty string are falsy, everything else truthy. -/
def jsTruthy : Json → Bool
  | .null => false
  | .bool b => b
  | .num n => n != 0
  | .str s => s != ""
  | .arr _ => true
  | .obj _ => true

/-- Look up a field of a JS object (`"id" in document` / `document.id`). -/
def JsonObj.lookup : JsonObj → String → Option Json
  | .nil, _ => none
  | .cons k v tl, key => if k = key then some v else tl.lookup key

/-- The object spread followed by setting `id` (`\x7b ...document, id \x7d`).
When the key is already present its value is overwritten in place (JS keeps
the original insertion position); otherwise the binding is appended. -/
def JsonObj.set : JsonObj → String → Json → JsonObj
  | .nil, key, v => .cons key v .nil
  | .cons k w tl, key, v =>
    if k = key then .cons k v tl else .cons k w (tl.set key v)

/-- Fueled digit accumulator: peels decimal digits of `n`, least significant
first, onto `acc`.  Fuel `n` itself is always sufficient. -/
def natDigitsAux : Nat → Nat → List Char → List Char
  | 0, _, acc => acc
  | fuel + 1, n, acc =>
    if n = 0 then acc
    else natDigitsAux fuel (n / 10) (Nat.digitChar (n % 10) :: acc)

/-- Decimal digits of a natural number, most significant first
(the output of JavaScript `String(n)` for a positive natural number). -/
def natDigits (n : Nat) : List Char :=
  natDigitsAux n n []

/-- `String(n)` for a natural number. -/
def natDecString (n : Nat) : String :=
  if n = 0 then "0" else String.mk (natDigits n)

/-- `String(n)` for an integer. -/
def intDecString : Int → String
  | .ofNat n => natDecString n
  | .negSucc m => "-" ++ natDecString (m + 1)

/-- Lowercase hexadecimal digit, as emitted inside `\u00XX` escapes. -/
def hexDigitChar (n : Nat) : Char :=
  if n < 10 then Nat.digitChar n
  else if n = 10 then 'a'
  else if n = 11 then 'b'
  else if n = 12 then 'c'
  else if n = 13 then 'd'
  else if n = 14 then 'e'
  else 'f'

/-- The escape sequence `JSON.stringify` emits for one character of a string:
quote and backslash get a backslash escape, the named control characters get
their two-character escapes, the remaining control characters below `0x20`
become `\u00XX`, and every other character is emitted verbatim. -/
def escChar (c : Char) : List Char :=
  if c = '"' then ['\\', '"']
  else if c = '\\' then ['\\', '\\']
  else if c = Char.ofNat 8 then ['\\', 'b']
  else if c = Char.ofNat 9 then ['\\', 't']
  else if c = Char.ofNat 10 then ['\\', 'n']
  else if c = Char.ofNat 12 then ['\\', 'f']
  else if c = Char.ofNat 13 then ['\\', 'r']
  else if c.toNat < 0x20 then
    ['\\', 'u', '0', '0', hexDigitChar (c.toNat / 16), hexDigitChar (c.toNat % 16)]
  else [c]

/-- Escaped body of a JSON string literal. -/
def escList : List Char → List Char
  | [] => []
  | c :: cs => escChar c ++ escList cs

/-- A complete JSON string literal, quotes included. -/
def emitQuoted (s : String) : List Char :=
  '"' :: (escList s.data ++ ['"'])

/-- The indentation `JSON.stringify(v, null, 4)` puts in front of an entry at
nesting depth `d`. -/
def indentChars (d : Nat) : List Char :=
  List.replicate (4 * d) ' '

mutual

/-- `JSON.stringify(v, null, 4)`, character by character: `emitVal v d` is the
rendering of `v` whose nested entries are indented at depth `d + 1` and whose
closing bracket is indented at depth `d`. -/
def emitVal : Json → Nat → List Char
  | .null, _ => ['n', 'u', 'l', 'l']
  | .bool true, _ => ['t', 'r', 'u', 'e']
  | .bool false, _ => ['f', 'a', 'l', 's', 'e']
  | .num n, _ => (intDecString n).data
  | .str s, _ => emitQuoted s
  | .arr .nil, _ => ['[', ']']
  | .arr (.cons x tl), d =>
    '[' :: '\n' :: (emitArrItems (.cons x tl) (d + 1) ++ '\n' :: (indentChars d ++ [']']))
  | .obj .nil, _ => ['{', '}']
  | .obj (.cons k v tl), d =>
    '{' :: '\n' :: (emitObjItems (.cons k v tl) (d + 1) ++ '\n' :: (indentChars d ++ ['}']))

/-- The comma-and-newline separated entries of a nonempty array. -/
def emitArrItems : JsonArr → Nat → List Char
  | .nil, _ => []
  | .cons x .nil, d => indentChars d ++ emitVal x d
  | .cons x (.cons y tl), d =>
    indentChars d ++ emitVal x d ++ ',' :: '\n' :: emitArrItems (.cons y tl) d

/-- The comma-and-newline separated entries of a nonempty object. -/
def emitObjItems : JsonObj → Nat → List Char
  | .nil, _ => []
  | .cons k v .nil, d => indentChars d ++ emitQuoted k ++ ':' :: ' ' :: emitVal v d
  | .cons k v (.cons k2 v2 tl), d =>
    indentChars d ++ emitQuoted k ++ ':' :: ' ' :: emitVal v d
      ++ ',' :: '\n' :: emitObjItems (.cons k2 v2 tl) d

end

/-- `JSON.stringify(v, null, 4)`. -/
def Json.stringify (v : Json) : String :=
  String.mk (emitVal v 0)


/-- JSON insignificant whitespace. -/
def isWsChar (c : Char) : Bool :=
  c = ' ' || c = '\t' || c = '\n' || c = '\r'

/-- Drop leading JSON whitespace. -/
def skipWs : List Char → List Char
  | [] => []
  | c :: cs => if isWsChar c then skipWs cs else c :: cs

/-- Value of a hexadecimal digit character, if it is one. -/
def hexVal? (c : Char) : Option Nat :=
  if '0' ≤ c ∧ c ≤ '9' then some (c.toNat - '0'.toNat)
  else if 'a' ≤ c ∧ c ≤ 'f' then some (c.toNat - 'a'.toNat + 10)
  else if 'A' ≤ c ∧ c ≤ 'F' then some (c.toNat - 'A'.toNat + 10)
  else none

/-- Value of a decimal digit character, if it is one. -/
def digVal? (c : Char) : Option Nat :=
  if '0' ≤ c ∧ c ≤ '9' then some (c.toNat - '0'.toNat) else none

/-- Append one decoded character to a string-body parse result. -/
def parseStrSuf (decoded : Char) : Option (List Char × List Char) → Option (List Char × List Char)
  | some (body, rest) => some (decoded :: body, rest)
  | none => none

/-- Body of a JSON string literal after the opening quote: literal characters,
the named escapes, `\uXXXX` escapes, terminated by the closing quote.
Raw control characters and lone-surrogate escapes are rejected, as by
`JSON.parse`.  Returns the decoded characters and the unconsumed input. -/
def parseStrBody : List Char → Option (List Char × List Char)
  | [] => none
  | c :: cs =>
    if c = '"' then some ([], cs)
    else if c = '\\' then
      match cs with
      | [] => none
      | e :: cs2 =>
        if e = '"' ∨ e = '\\' ∨ e = '/' then parseStrSuf e (parseStrBody cs2)
        else if e = 'b' then parseStrSuf (Char.ofNat 8) (parseStrBody cs2)
        else if e = 't' then parseStrSuf (Char.ofNat 9) (parseStrBody cs2)
        else if e = 'n' then parseStrSuf (Char.ofNat 10) (parseStrBody cs2)
        else if e = 'f' then parseStrSuf (Char.ofNat 12) (parseStrBody cs2)
        else if e = 'r' then parseStrSuf (Char.ofNat 13) (parseStrBody cs2)
        else if e = 'u' then
          match cs2 with
          | h1 :: h2 :: h3 :: h4 :: cs3 =>
            (match hexVal? h1, hexVal? h2, hexVal? h3, hexVal? h4 with
             | some v1, some v2, some v3, some v4 =>
               if ((v1 * 16 + v2) * 16 + v3) * 16 + v4 < 0xd800
                   ∨ 0xe000 ≤ ((v1 * 16 + v2) * 16 + v3) * 16 + v4 then
                 parseStrSuf (Char.ofNat (((v1 * 16 + v2) * 16 + v3) * 16 + v4))
                   (parseStrBody cs3)
               else none
             | _, _, _, _ => none)
          | _ => none
        else none
    else if c.toNat < 0x20 then none
    else parseStrSuf c (parseStrBody cs)

/-- Consume a maximal run of decimal digits, folding them onto `acc`. -/
def parseDigits : List Char → Nat → Nat × List Char
  | [], acc => (acc, [])
  | c :: cs, acc =>
    match digVal? c with
    | some d => parseDigits cs (acc * 10 + d)
    | none => (acc, c :: cs)

/-- A JSON natural-number literal: `0`, or a nonzero digit followed by more
digits.  A leading zero followed by a digit is rejected, as by `JSON.parse`. -/
def parseNatNum : List Char → Option (Nat × List Char)
  | [] => none
  | c :: cs =>
    if c = '0' then
      match cs with
      | c2 :: _ => if (digVal? c2).isSome then none else some (0, cs)
      | [] => some (0, [])
    else
      match digVal? c with
      | some d => some (parseDigits cs d)
      | none => none

/-- A JSON integer literal with optional leading minus sign. -/
def parseIntNum : List Char → Option (Int × List Char)
  | [] => none
  | c :: cs =>
    if c = '-' then
      match parseNatNum cs with
      | some (n, r) => some (-(n : Int), r)
      | none => none
    else
      match parseNatNum (c :: cs) with
      | some (n, r) => some ((n : Int), r)
      | none => none

mutual

/-- Fueled JSON value parser; the fuel bounds the nesting depth only, so any
fuel of at least the length of the input is sufficient. -/
def parseVal : Nat → List Char → Option (Json × List Char)
  | 0, _ => none
  | _ + 1, [] => none
  | f + 1, c :: cs =>
    if c = 'n' then
      match cs with
      | 'u' :: 'l' :: 'l' :: r => some (.null, r)
      | _ => none
    else if c = 't' then
      match cs with
      | 'r' :: 'u' :: 'e' :: r => some (.bool true, r)
      | _ => none
    else if c = 'f' then
      match cs with
      | 'a' :: 'l' :: 's' :: 'e' :: r => some (.bool false, r)
      | _ => none
    else if c = '"' then
      match parseStrBody cs with
      | some (body, r) => some (.str (String.mk body), r)
      | none => none
    else if c = '[' then
      match skipWs cs with
      | [] => none
      | c1 :: r1 =>
        if c1 = ']' then some (.arr .nil, r1)
        else
          match parseArrItems f (c1 :: r1) with
          | some (items, r) => some (.arr items, r)
          | none => none
    else if c = '{' then
      match skipWs cs with
      | [] => none
      | c1 :: r1 =>
        if c1 = '}' then some (.obj .nil, r1)
        else
          match parseObjItems f (c1 :: r1) with
          | some (fields, r) => some (.obj fields, r)
          | none => none
    else
      match parseIntNum (c :: cs) with
      | some (n, r) => some (.num n, r)
      | none => none

/-- One or more comma-separated array entries followed by `]`. -/
def parseArrItems : Nat → List Char → Option (JsonArr × List Char)
  | 0, _ => none
  | f + 1, l =>
    match parseVal f l with
    | none => none
    | some (v, r) =>
      match skipWs r with
      | [] => none
      | c1 :: r2 =>
        if c1 = ',' then
          match parseArrItems f (skipWs r2) with
          | some (tl, rr) => some (.cons v tl, rr)
          | none => none
        else if c1 = ']' then some (.cons v .nil, r2)
        else none

/-- One or more comma-separated `"key": value` entries followed by the closing
brace. -/
def parseObjItems : Nat → List Char → Option (JsonObj × List Char)
  | 0, _ => none
  | f + 1, l =>
    match l with
    | [] => none
    | c0 :: cs =>
      if c0 = '"' then
        match parseStrBody cs with
        | none => none
        | some (kbody, r1) =>
          match skipWs r1 with
          | [] => none
          | c2 :: r2 =>
            if c2 = ':' then
              match parseVal f (skipWs r2) with
              | none => none
              | some (v, r3) =>
                match skipWs r3 with
                | [] => none
                | c4 :: r4 =>
                  if c4 = ',' then
                    match parseObjItems f (skipWs r4) with
                    | some (tl, rr) => some (.cons (String.mk kbody) v tl, rr)
                    | none => none
                  else if c4 = '}' then some (.cons (String.mk kbody) v .nil, r4)
                  else none
            else none
      else none

end

/-- `JSON.parse`: leading and trailing whitespace around a single value. -/
def Json.parse (s : String) : Option Json :=
  match parseVal (s.data.length + 1) (skipWs s.data) with
  | some (v, rest) => if skipWs rest = [] then some v else none
  | none => none


/-- Does the input start with a decimal digit?  (The digit run of a number
literal may not be extended by what follows it.) -/
def headDigit : List Char → Bool
  | [] => false
  | c :: _ => (digVal? c).isSome

theorem natDigitsAux_acc : ∀ (fuel n : Nat) (acc : List Char),
    natDigitsAux fuel n acc = natDigitsAux fuel n [] ++ acc
  | 0, _, _ => rfl
  | fuel + 1, n, acc => by
    simp only [natDigitsAux]
    by_cases h : n = 0
    · simp [h]
    · simp only [h, if_false]
      rw [natDigitsAux_acc fuel (n / 10) (Nat.digitChar (n % 10) :: acc),
        natDigitsAux_acc fuel (n / 10) [Nat.digitChar (n % 10)]]
      simp

theorem natDigitsAux_zero (fuel : Nat) (acc : List Char) :
    natDigitsAux fuel 0 acc = acc := by
  cases fuel <;> simp [natDigitsAux]

theorem natDigitsAux_fuel (n : Nat) : ∀ f1 f2 : Nat, n ≤ f1 → n ≤ f2 →
    natDigitsAux f1 n [] = natDigitsAux f2 n [] := by
  induction n using Nat.strong_induction_on with
  | _ n ih =>
    intro f1 f2 h1 h2
    by_cases h : n = 0
    · subst h; rw [natDigitsAux_zero, natDigitsAux_zero]
    · have hd : n / 10 < n := Nat.div_lt_self (Nat.pos_of_ne_zero h) (by omega)
      obtain ⟨g1, rfl⟩ : ∃ g, f1 = g + 1 := ⟨f1 - 1, by omega⟩
      obtain ⟨g2, rfl⟩ : ∃ g, f2 = g + 1 := ⟨f2 - 1, by omega⟩
      simp only [natDigitsAux, h, if_false]
      rw [natDigitsAux_acc g1, natDigitsAux_acc g2,
        ih (n / 10) hd g1 g2 (by omega) (by omega)]

theorem natDigits_step (n : Nat) (h : n ≠ 0) :
    natDigits n
      = (if n / 10 = 0 then [] else natDigits (n / 10)) ++ [Nat.digitChar (n % 10)] := by
  have hd : n / 10 < n := Nat.div_lt_self (Nat.pos_of_ne_zero h) (by omega)
  match n, h with
  | n + 1, _ =>
    show natDigitsAux (n + 1) (n + 1) [] = _
    simp only [natDigitsAux, Nat.succ_ne_zero, if_false]
    rw [natDigitsAux_acc n ((n + 1) / 10)]
    by_cases h10 : (n + 1) / 10 = 0
    · simp [h10, natDigitsAux_zero]
    · simp only [h10, if_false]
      rw [natDigitsAux_fuel ((n + 1) / 10) n ((n + 1) / 10) (by omega) (le_refl _)]
      rfl

theorem natDigits_head (n : Nat) (h : n ≠ 0) :
    ∃ m tl, 0 < m ∧ m < 10 ∧ natDigits n = Nat.digitChar m :: tl := by
  induction n using Nat.strong_induction_on with
  | _ n ih =>
    have hd : n / 10 < n := Nat.div_lt_self (Nat.pos_of_ne_zero h) (by omega)
    rw [natDigits_step n h]
    by_cases h10 : n / 10 = 0
    · refine ⟨n % 10, [], ?_, ?_, ?_⟩
      · have : n % 10 = n := Nat.mod_eq_of_lt (by omega)
        omega
      · exact Nat.mod_lt n (by omega)
      · simp [h10]
    · obtain ⟨m, tl, hm0, hm10, heq⟩ := ih (n / 10) hd h10
      exact ⟨m, tl ++ [Nat.digitChar (n % 10)], hm0, hm10, by simp [h10, heq]⟩

theorem digVal?_digitChar : ∀ m : Nat, m < 10 → digVal? (Nat.digitChar m) = some m := by
  decide

theorem parseDigits_stop (l : List Char) (a : Nat) (h : headDigit l = false) :
    parseDigits l a = (a, l) := by
  cases l with
  | nil => rfl
  | cons c cs =>
    simp only [headDigit, Option.isSome] at h
    simp only [parseDigits]
    cases hv : digVal? c with
    | none => rfl
    | some d => rw [hv] at h; simp at h

theorem parseDigits_run (n : Nat) (h : n ≠ 0) : ∀ (l : List Char) (a : Nat),
    parseDigits (natDigits n ++ l) a = parseDigits l (a * 10 ^ (natDigits n).length + n) := by
  induction n using Nat.strong_induction_on with
  | _ n ih =>
    intro l a
    have hd : n / 10 < n := Nat.div_lt_self (Nat.pos_of_ne_zero h) (by omega)
    by_cases h10 : n / 10 = 0
    · have hn10 : n < 10 := by omega
      have : natDigits n = [Nat.digitChar (n % 10)] := by simp [natDigits_step n h, h10]
      rw [this]
      have hmod : n % 10 = n := Nat.mod_eq_of_lt hn10
      simp only [List.cons_append, List.nil_append, parseDigits, hmod,
        digVal?_digitChar n hn10, List.length_cons, List.length_nil]
      norm_num
    · have hstep : natDigits n = natDigits (n / 10) ++ [Nat.digitChar (n % 10)] := by
        simp [natDigits_step n h, h10]
      rw [hstep, List.append_assoc, ih (n / 10) hd h10, List.cons_append, List.nil_append,
        parseDigits, digVal?_digitChar (n % 10) (Nat.mod_lt n (by omega)), List.length_append]
      have hpow : 10 ^ ((natDigits (n / 10)).length + [Nat.digitChar (n % 10)].length)
          = 10 ^ (natDigits (n / 10)).length * 10 := by
        simp [pow_succ]
      rw [hpow]
      dsimp only
      congr 1
      have hexpand : (a * 10 ^ (natDigits (n / 10)).length + n / 10) * 10 + n % 10
          = a * (10 ^ (natDigits (n / 10)).length * 10) + (10 * (n / 10) + n % 10) := by
        ring
      rw [hexpand, Nat.div_add_mod]

theorem digitChar_ne_zero_char : ∀ m : Nat, m < 10 → 0 < m → Nat.digitChar m ≠ '0' := by
  decide

theorem parseNatNum_emit (n : Nat) (rest : List Char) (hr : headDigit rest = false) :
    parseNatNum ((natDecString n).data ++ rest) = some (n, rest) := by
  by_cases h : n = 0
  · subst h
    show parseNatNum ('0' :: rest) = some (0, rest)
    simp only [parseNatNum, if_pos rfl]
    cases rest with
    | nil => rfl
    | cons c2 cs2 =>
      simp only [headDigit] at hr
      simp [hr]
  · have hdata : (natDecString n).data = natDigits n := by
      simp [natDecString, h]
    obtain ⟨m, tl, hm0, hm10, heq⟩ := natDigits_head n h
    have hrun : parseDigits (natDigits n ++ rest) 0 = (n, rest) := by
      rw [parseDigits_run n h rest 0, parseDigits_stop rest _ hr]
      norm_num
    rw [hdata, heq]
    simp only [List.cons_append, parseNatNum,
      if_neg (digitChar_ne_zero_char m hm10 hm0), digVal?_digitChar m hm10]
    rw [heq] at hrun
    simp only [List.cons_append, parseDigits, digVal?_digitChar m hm10] at hrun
    simpa using hrun

theorem digitChar_not_minus : ∀ m : Nat, m < 10 → Nat.digitChar m ≠ '-' := by
  decide

theorem parseIntNum_emit (i : Int) (rest : List Char) (hr : headDigit rest = false) :
    parseIntNum ((intDecString i).data ++ rest) = some (i, rest) := by
  cases i with
  | ofNat n =>
    have hhead : ∃ m tl, m < 10 ∧ (natDecString n).data = Nat.digitChar m :: tl := by
      by_cases h : n = 0
      · exact ⟨0, [], by omega, by simp [h, natDecString]; rfl⟩
      · obtain ⟨m, tl, _, hm10, heq⟩ := natDigits_head n h
        exact ⟨m, tl, hm10, by simp [natDecString, h, heq]⟩
    obtain ⟨m, tl, hm10, heq⟩ := hhead
    show parseIntNum ((natDecString n).data ++ rest) = some (Int.ofNat n, rest)
    have := parseNatNum_emit n rest hr
    rw [heq] at this ⊢
    rw [List.cons_append] at this
    simp only [List.cons_append, parseIntNum, if_neg (digitChar_not_minus m hm10)]
    rw [this]
    rfl
  | negSucc m =>
    show parseIntNum (('-' :: (natDecString (m + 1)).data) ++ rest) = _
    simp only [List.cons_append, parseIntNum, if_pos rfl, parseNatNum_emit (m + 1) rest hr]
    rfl

theorem skipWs_replicate_space (n : Nat) (l : List Char) :
    skipWs (List.replicate n ' ' ++ l) = skipWs l := by
  induction n with
  | zero => rfl
  | succ n ih => simpa [skipWs, isWsChar] using ih

theorem skipWs_indent (d : Nat) (l : List Char) :
    skipWs (indentChars d ++ l) = skipWs l :=
  skipWs_replicate_space (4 * d) l

theorem skipWs_newline (l : List Char) : skipWs ('\n' :: l) = skipWs l := by
  simp [skipWs, isWsChar]

theorem skipWs_not (c : Char) (l : List Char) (h : isWsChar c = false) :
    skipWs (c :: l) = c :: l := by
  simp [skipWs, h]

theorem hexVal?_hexDigitChar : ∀ m : Nat, m < 16 → hexVal? (hexDigitChar m) = some m := by
  decide

theorem parseStrBody_esc : ∀ (s rest : List Char),
    parseStrBody (escList s ++ '"' :: rest) = some (s, rest)
  | [], rest => by
    rw [escList, List.nil_append, parseStrBody.eq_def]
    simp
  | c :: cs, rest => by
    have ih := parseStrBody_esc cs rest
    rw [escList, List.append_assoc]
    by_cases hq : c = '"'
    · subst hq
      have hesc : escChar '"' = ['\\', '"'] := by decide
      rw [hesc]
      simp only [List.cons_append, List.nil_append]
      rw [parseStrBody.eq_def]
      simp [Char.ext_iff, ih, parseStrSuf]
    · by_cases hb : c = '\\'
      · subst hb
        have hesc : escChar '\\' = ['\\', '\\'] := by decide
        rw [hesc]
        simp only [List.cons_append, List.nil_append]
        rw [parseStrBody.eq_def]
        simp [Char.ext_iff, ih, parseStrSuf]
      · by_cases h8 : c = Char.ofNat 8
        · subst h8
          have hesc : escChar (Char.ofNat 8) = ['\\', 'b'] := by decide
          rw [hesc]
          simp only [List.cons_append, List.nil_append]
          rw [parseStrBody.eq_def]
          simp [Char.ext_iff, ih, parseStrSuf]
        · by_cases h9 : c = Char.ofNat 9
          · subst h9
            have hesc : escChar (Char.ofNat 9) = ['\\', 't'] := by decide
            rw [hesc]
            simp only [List.cons_append, List.nil_append]
            rw [parseStrBody.eq_def]
            simp [Char.ext_iff, ih, parseStrSuf]
          · by_cases h10 : c = Char.ofNat 10
            · subst h10
              have hesc : escChar (Char.ofNat 10) = ['\\', 'n'] := by decide
              rw [hesc]
              simp only [List.cons_append, List.nil_append]
              rw [parseStrBody.eq_def]
              simp [Char.ext_iff, ih, parseStrSuf]
            · by_cases h12 : c = Char.ofNat 12
              · subst h12
                have hesc : escChar (Char.ofNat 12) = ['\\', 'f'] := by decide
                rw [hesc]
                simp only [List.cons_append, List.nil_append]
                rw [parseStrBody.eq_def]
                simp [Char.ext_iff, ih, parseStrSuf]
              · by_cases h13 : c = Char.ofNat 13
                · subst h13
                  have hesc : escChar (Char.ofNat 13) = ['\\', 'r'] := by decide
                  rw [hesc]
                  simp only [List.cons_append, List.nil_append]
                  rw [parseStrBody.eq_def]
                  simp [Char.ext_iff, ih, parseStrSuf]
                · by_cases hctl : c.toNat < 0x20
                  · have h16a : c.toNat / 16 < 16 := by omega
                    have h16b : c.toNat % 16 < 16 := Nat.mod_lt _ (by omega)
                    have hesc : escChar c
                        = ['\\', 'u', '0', '0',
                            hexDigitChar (c.toNat / 16), hexDigitChar (c.toNat % 16)] := by
                      simp [escChar, hq, hb, h8, h9, h10, h12, h13, hctl]
                    rw [hesc]
                    simp only [List.cons_append, List.nil_append]
                    rw [parseStrBody.eq_def]
                    have hn : ((0 * 16 + 0) * 16 + c.toNat / 16) * 16 + c.toNat % 16
                        = c.toNat := by omega
                    have hlt : c.toNat < 55296 := by omega
                    have h0 : hexVal? '0' = some 0 := by decide
                    simp [Char.ext_iff, h0, hexVal?_hexDigitChar _ h16a,
                      hexVal?_hexDigitChar _ h16b, hn, hlt, ih, parseStrSuf,
                      Char.ofNat_toNat]
                    have hdm : c.toNat / 16 * 16 + c.toNat % 16 = c.toNat := by omega
                    rw [hdm]
                    exact ⟨Or.inl hlt, by rw [Char.ofNat_toNat]⟩
                  · have hesc : escChar c = [c] := by
                      simp [escChar, hq, hb, h8, h9, h10, h12, h13, hctl]
                    rw [hesc]
                    simp only [List.cons_append, List.nil_append]
                    rw [parseStrBody.eq_def]
                    simp [hq, hb, hctl, ih, parseStrSuf]

mutual

/-- Fuel needed by `parseVal` to parse the rendering of a value. -/
def costV : Json → Nat
  | .arr l => 1 + costArr l
  | .obj l => 1 + costObj l
  | _ => 1

/-- Fuel needed by `parseArrItems` for the run of array entries in `l`. -/
def costArr : JsonArr → Nat
  | .nil => 0
  | .cons x tl => 1 + costV x + costArr tl

/-- Fuel needed by `parseObjItems` for the run of object entries in `l`. -/
def costObj : JsonObj → Nat
  | .nil => 0
  | .cons _ v tl => 1 + costV v + costObj tl

end

/-- What the parser still has to see after one array entry: either the close
bracket on its own line, or a comma and the next entries. -/
def arrAfter : JsonArr → Nat → Nat → List Char → List Char
  | .nil, _, dp, rest => '\n' :: (indentChars dp ++ ']' :: rest)
  | .cons y tl, d, dp, rest =>
    ',' :: '\n' :: (indentChars d ++ (emitVal y d ++ arrAfter tl d dp rest))

/-- What the parser still has to see after one object entry. -/
def objAfter : JsonObj → Nat → Nat → List Char → List Char
  | .nil, _, dp, rest => '\n' :: (indentChars dp ++ '}' :: rest)
  | .cons k v tl, d, dp, rest =>
    ',' :: '\n'
      :: (indentChars d ++ (emitQuoted k ++ ':' :: ' ' :: (emitVal v d ++ objAfter tl d dp rest)))

theorem emitArrItems_decomp (x : Json) : ∀ (tl : JsonArr) (d dp : Nat) (rest : List Char),
    emitArrItems (.cons x tl) d ++ '\n' :: (indentChars dp ++ ']' :: rest)
      = indentChars d ++ (emitVal x d ++ arrAfter tl d dp rest)
  | .nil, d, dp, rest => by
    simp [emitArrItems, arrAfter, List.append_assoc]
  | .cons y tl, d, dp, rest => by
    have ih := emitArrItems_decomp y tl d dp rest
    simp only [emitArrItems, arrAfter, List.append_assoc, List.cons_append] at ih ⊢
    rw [ih]

theorem emitObjItems_decomp (k : String) (v : Json) :
    ∀ (tl : JsonObj) (d dp : Nat) (rest : List Char),
    emitObjItems (.cons k v tl) d ++ '\n' :: (indentChars dp ++ '}' :: rest)
      = indentChars d ++ (emitQuoted k ++ ':' :: ' ' :: (emitVal v d ++ objAfter tl d dp rest))
  | .nil, d, dp, rest => by
    simp [emitObjItems, objAfter, List.append_assoc]
  | .cons k2 v2 tl, d, dp, rest => by
    have ih := emitObjItems_decomp k2 v2 tl d dp rest
    simp only [emitObjItems, objAfter, List.append_assoc, List.cons_append] at ih ⊢
    rw [ih]

theorem digitChar_headProps : ∀ m : Nat, m < 10 →
    isWsChar (Nat.digitChar m) = false ∧ Nat.digitChar m ≠ ']' ∧ Nat.digitChar m ≠ '}'
      ∧ Nat.digitChar m ≠ 'n' ∧ Nat.digitChar m ≠ 't' ∧ Nat.digitChar m ≠ 'f'
      ∧ Nat.digitChar m ≠ '"' ∧ Nat.digitChar m ≠ '[' ∧ Nat.digitChar m ≠ '{' := by
  decide

theorem natDecString_head (n : Nat) :
    ∃ m tl, m < 10 ∧ (natDecString n).data = Nat.digitChar m :: tl := by
  by_cases h : n = 0
  · refine ⟨0, [], by omega, ?_⟩
    simp only [natDecString, h, if_pos]
    decide
  · obtain ⟨m, tl, _, hm10, heq⟩ := natDigits_head n h
    exact ⟨m, tl, hm10, by simp [natDecString, h, heq]⟩

theorem intDecString_head (i : Int) :
    ∃ c tl, (intDecString i).data = c :: tl
      ∧ isWsChar c = false ∧ c ≠ ']' ∧ c ≠ '}' ∧ c ≠ 'n' ∧ c ≠ 't' ∧ c ≠ 'f'
      ∧ c ≠ '"' ∧ c ≠ '[' ∧ c ≠ '{' := by
  cases i with
  | ofNat n =>
    obtain ⟨m, tl, hm10, heq⟩ := natDecString_head n
    obtain ⟨p1, p2, p3, p4, p5, p6, p7, p8, p9⟩ := digitChar_headProps m hm10
    exact ⟨Nat.digitChar m, tl, heq, p1, p2, p3, p4, p5, p6, p7, p8, p9⟩
  | negSucc m =>
    refine ⟨'-', (natDecString (m + 1)).data, ?_, by decide, by decide, by decide,
      by decide, by decide, by decide, by decide, by decide, by decide⟩
    show (("-" : String) ++ natDecString (m + 1)).data = _
    rw [String.data_append]
    rfl

theorem emitVal_head (v : Json) (d : Nat) :
    ∃ c cs, emitVal v d = c :: cs ∧ isWsChar c = false ∧ c ≠ ']' ∧ c ≠ '}' := by
  cases v with
  | null => exact ⟨'n', ['u', 'l', 'l'], rfl, by decide, by decide, by decide⟩
  | bool b =>
    cases b with
    | true => exact ⟨'t', ['r', 'u', 'e'], rfl, by decide, by decide, by decide⟩
    | false => exact ⟨'f', ['a', 'l', 's', 'e'], rfl, by decide, by decide, by decide⟩
  | num n =>
    obtain ⟨c, tl, heq, p1, p2, p3, _⟩ := intDecString_head n
    exact ⟨c, tl, heq, p1, p2, p3⟩
  | str s => exact ⟨'"', escList s.data ++ ['"'], rfl, by decide, by decide, by decide⟩
  | arr elems =>
    cases elems with
    | nil => exact ⟨'[', [']'], rfl, by decide, by decide, by decide⟩
    | cons x tl =>
      exact ⟨'[', '\n' :: (emitArrItems (.cons x tl) (d + 1)
        ++ '\n' :: (indentChars d ++ [']'])), rfl, by decide, by decide, by decide⟩
  | obj fields =>
    cases fields with
    | nil => exact ⟨'{', ['}'], rfl, by decide, by decide, by decide⟩
    | cons k v tl =>
      exact ⟨'{', '\n' :: (emitObjItems (.cons k v tl) (d + 1)
        ++ '\n' :: (indentChars d ++ ['}'])), rfl, by decide, by decide, by decide⟩

theorem skipWs_emit (v : Json) (d : Nat) (l : List Char) :
    skipWs (emitVal v d ++ l) = emitVal v d ++ l := by
  obtain ⟨c, cs, heq, hws, _, _⟩ := emitVal_head v d
  rw [heq, List.cons_append, skipWs_not c _ hws]

theorem headDigit_arrAfter (tl : JsonArr) (d dp : Nat) (rest : List Char) :
    headDigit (arrAfter tl d dp rest) = false := by
  cases tl <;> simp [arrAfter, headDigit] <;> decide

theorem headDigit_objAfter (tl : JsonObj) (d dp : Nat) (rest : List Char) :
    headDigit (objAfter tl d dp rest) = false := by
  cases tl <;> simp [objAfter, headDigit] <;> decide

theorem string_mk_data (s : String) : String.mk s.data = s := rfl

theorem skipWs_comma (l : List Char) : skipWs (',' :: l) = ',' :: l :=
  skipWs_not ',' l (by decide)

theorem skipWs_colon (l : List Char) : skipWs (':' :: l) = ':' :: l :=
  skipWs_not ':' l (by decide)

theorem skipWs_rbrack (l : List Char) : skipWs (']' :: l) = ']' :: l :=
  skipWs_not ']' l (by decide)

theorem skipWs_rbrace (l : List Char) : skipWs ('}' :: l) = '}' :: l :=
  skipWs_not '}' l (by decide)

theorem skipWs_quote (l : List Char) : skipWs ('"' :: l) = '"' :: l :=
  skipWs_not '"' l (by decide)

theorem skipWs_space (l : List Char) : skipWs (' ' :: l) = skipWs l := by
  simp [skipWs, isWsChar]

theorem costV_pos (v : Json) : 1 ≤ costV v := by
  cases v <;> simp [costV]

mutual

theorem parseVal_emit (v : Json) (f d : Nat) (rest : List Char)
    (hc : costV v ≤ f) (hr : headDigit rest = false) :
    parseVal f (emitVal v d ++ rest) = some (v, rest) := by
  obtain ⟨f', rfl⟩ : ∃ g, f = g + 1 := ⟨f - 1, by have := costV_pos v; omega⟩
  cases v with
  | null =>
    show parseVal (f' + 1) ('n' :: 'u' :: 'l' :: 'l' :: rest) = some (.null, rest)
    rw [parseVal.eq_def]
    simp
  | bool b =>
    cases b with
    | true =>
      show parseVal (f' + 1) ('t' :: 'r' :: 'u' :: 'e' :: rest) = some (.bool true, rest)
      rw [parseVal.eq_def]
      simp
    | false =>
      show parseVal (f' + 1) ('f' :: 'a' :: 'l' :: 's' :: 'e' :: rest)
        = some (.bool false, rest)
      rw [parseVal.eq_def]
      simp
  | num n =>
    obtain ⟨c, tl, heq, _, _, _, hn, ht, hf, hq, hlb, hlc⟩ := intDecString_head n
    have hint := parseIntNum_emit n rest hr
    show parseVal (f' + 1) ((intDecString n).data ++ rest) = some (.num n, rest)
    rw [heq, List.cons_append] at hint ⊢
    rw [parseVal.eq_def]
    simp [hn, ht, hf, hq, hlb, hlc, hint]
  | str s =>
    show parseVal (f' + 1) ('"' :: ((escList s.data ++ ['"']) ++ rest)) = some (.str s, rest)
    have hx : (escList s.data ++ ['"']) ++ rest = escList s.data ++ '"' :: rest := by
      simp
    rw [hx, parseVal.eq_def]
    simp [parseStrBody_esc s.data rest, string_mk_data]
  | arr elems =>
    cases elems with
    | nil =>
      show parseVal (f' + 1) ('[' :: ']' :: rest) = some (.arr .nil, rest)
      rw [parseVal.eq_def]
      simp [skipWs_rbrack]
    | cons x tl =>
      have hcm : costV (.arr (.cons x tl)) = 1 + costArr (.cons x tl) := rfl
      have hcost : costArr (.cons x tl) ≤ f' := by omega
      have hdec := emitArrItems_decomp x tl (d + 1) d rest
      show parseVal (f' + 1)
          ('[' :: '\n'
            :: ((emitArrItems (.cons x tl) (d + 1) ++ '\n' :: (indentChars d ++ [']'])) ++ rest))
          = some (.arr (.cons x tl), rest)
      have hre : (emitArrItems (.cons x tl) (d + 1) ++ '\n' :: (indentChars d ++ [']'])) ++ rest
          = indentChars (d + 1) ++ (emitVal x (d + 1) ++ arrAfter tl (d + 1) d rest) := by
        rw [← hdec]
        simp
      rw [hre, parseVal.eq_def]
      obtain ⟨c1, cs1, hxeq, hxws, hxne1, hxne2⟩ := emitVal_head x (d + 1)
      have hres := parseArr_emit x tl f' (d + 1) d rest hcost hr
      rw [hxeq, List.cons_append] at hres
      have hskip : skipWs ('\n'
          :: (indentChars (d + 1) ++ (emitVal x (d + 1) ++ arrAfter tl (d + 1) d rest)))
          = c1 :: (cs1 ++ arrAfter tl (d + 1) d rest) := by
        rw [skipWs_newline, skipWs_indent, skipWs_emit, hxeq, List.cons_append]
      simp [hskip, hxne1, hres]
  | obj fields =>
    cases fields with
    | nil =>
      show parseVal (f' + 1) ('{' :: '}' :: rest) = some (.obj .nil, rest)
      rw [parseVal.eq_def]
      simp [skipWs_rbrace]
    | cons k v tl =>
      have hcm : costV (.obj (.cons k v tl)) = 1 + costObj (.cons k v tl) := rfl
      have hcost : costObj (.cons k v tl) ≤ f' := by omega
      have hdec := emitObjItems_decomp k v tl (d + 1) d rest
      show parseVal (f' + 1)
          ('{' :: '\n'
            :: ((emitObjItems (.cons k v tl) (d + 1) ++ '\n' :: (indentChars d ++ ['}'])) ++ rest))
          = some (.obj (.cons k v tl), rest)
      have hre : (emitObjItems (.cons k v tl) (d + 1) ++ '\n' :: (indentChars d ++ ['}'])) ++ rest
          = indentChars (d + 1)
            ++ (emitQuoted k ++ ':' :: ' ' :: (emitVal v (d + 1) ++ objAfter tl (d + 1) d rest)) := by
        rw [← hdec]
        simp
      rw [hre, parseVal.eq_def]
      have hres := parseObj_emit k v tl f' (d + 1) d rest hcost hr
      rw [emitQuoted, List.cons_append] at hres
      simp only [List.singleton_append, List.append_assoc] at hres
      have hskip : skipWs ('\n' :: (indentChars (d + 1)
          ++ (emitQuoted k ++ ':' :: ' ' :: (emitVal v (d + 1) ++ objAfter tl (d + 1) d rest))))
          = '"' :: ((escList k.data ++ ['"'])
              ++ ':' :: ' ' :: (emitVal v (d + 1) ++ objAfter tl (d + 1) d rest)) := by
        rw [skipWs_newline, skipWs_indent, emitQuoted, List.cons_append, skipWs_quote]
      simp [hskip, hres]
termination_by sizeOf v

theorem parseArr_emit (x : Json) (tl : JsonArr) (f d dp : Nat) (rest : List Char)
    (hc : costArr (.cons x tl) ≤ f) (hr : headDigit rest = false) :
    parseArrItems f (emitVal x d ++ arrAfter tl d dp rest) = some (.cons x tl, rest) := by
  have hcm : costArr (.cons x tl) = 1 + costV x + costArr tl := rfl
  obtain ⟨f', rfl⟩ : ∃ g, f = g + 1 := ⟨f - 1, by omega⟩
  have hv := parseVal_emit x f' d (arrAfter tl d dp rest) (by omega)
    (headDigit_arrAfter tl d dp rest)
  rw [parseArrItems.eq_def]
  cases tl with
  | nil =>
    simp only [arrAfter] at hv
    simp [hv, arrAfter, skipWs_newline, skipWs_indent, skipWs_rbrack]
  | cons y tl' =>
    have hcost : costArr (.cons y tl') ≤ f' := by
      have h1 := costV_pos x
      have h2 : costArr (.cons x (.cons y tl'))
          = 1 + costV x + costArr (.cons y tl') := rfl
      omega
    have hres := parseArr_emit y tl' f' d dp rest hcost hr
    simp only [arrAfter] at hv
    simp [hv, arrAfter, skipWs_comma, skipWs_newline, skipWs_indent, skipWs_emit, hres]
termination_by sizeOf (JsonArr.cons x tl)

theorem parseObj_emit (k : String) (v : Json) (tl : JsonObj) (f d dp : Nat) (rest : List Char)
    (hc : costObj (.cons k v tl) ≤ f) (hr : headDigit rest = false) :
    parseObjItems f (emitQuoted k ++ ':' :: ' ' :: (emitVal v d ++ objAfter tl d dp rest))
      = some (.cons k v tl, rest) := by
  have hcm : costObj (.cons k v tl) = 1 + costV v + costObj tl := rfl
  obtain ⟨f', rfl⟩ : ∃ g, f = g + 1 := ⟨f - 1, by omega⟩
  have hv := parseVal_emit v f' d (objAfter tl d dp rest) (by omega)
    (headDigit_objAfter tl d dp rest)
  have hkey : parseStrBody
      (escList k.data ++ '"' :: (':' :: ' ' :: (emitVal v d ++ objAfter tl d dp rest)))
      = some (k.data, ':' :: ' ' :: (emitVal v d ++ objAfter tl d dp rest)) :=
    parseStrBody_esc k.data _
  show parseObjItems (f' + 1)
      ('"' :: ((escList k.data ++ ['"'])
        ++ ':' :: ' ' :: (emitVal v d ++ objAfter tl d dp rest)))
      = some (.cons k v tl, rest)
  have hx : (escList k.data ++ ['"']) ++ ':' :: ' ' :: (emitVal v d ++ objAfter tl d dp rest)
      = escList k.data ++ '"' :: (':' :: ' ' :: (emitVal v d ++ objAfter tl d dp rest)) := by
    simp
  rw [hx, parseObjItems.eq_def]
  cases tl with
  | nil =>
    simp only [objAfter] at hv hkey
    simp [hkey, skipWs_colon, skipWs_space, skipWs_emit, hv, objAfter,
      skipWs_newline, skipWs_indent, skipWs_rbrace, string_mk_data]
  | cons k2 v2 tl2 =>
    have hcost : costObj (.cons k2 v2 tl2) ≤ f' := by
      have h1 := costV_pos v
      have h2 : costObj (.cons k v (.cons k2 v2 tl2))
          = 1 + costV v + costObj (.cons k2 v2 tl2) := rfl
      omega
    have hres := parseObj_emit k2 v2 tl2 f' d dp rest hcost hr
    have hq2 : skipWs (emitQuoted k2 ++ ':' :: ' ' :: (emitVal v2 d ++ objAfter tl2 d dp rest))
        = emitQuoted k2 ++ ':' :: ' ' :: (emitVal v2 d ++ objAfter tl2 d dp rest) := by
      rw [emitQuoted, List.cons_append, skipWs_quote]
    simp only [objAfter] at hv hkey
    simp [hkey, skipWs_colon, skipWs_space, skipWs_emit, hv, objAfter,
      skipWs_newline, skipWs_indent, skipWs_comma, hq2, hres, string_mk_data]
termination_by sizeOf (JsonObj.cons k v tl)

end

mutual

theorem costV_le_length (v : Json) (d : Nat) : costV v ≤ (emitVal v d).length := by
  cases v with
  | null => simp [costV, emitVal]
  | bool b => cases b <;> simp [costV, emitVal]
  | num n =>
    obtain ⟨c, tl, heq, _⟩ := intDecString_head n
    simp [costV, emitVal, heq]
  | str s => simp [costV, emitVal, emitQuoted]
  | arr elems =>
    cases elems with
    | nil => simp [costV, costArr, emitVal]
    | cons x tl =>
      have h := costArr_le_length x tl (d + 1)
      have hv : costV (.arr (.cons x tl)) = 1 + costArr (.cons x tl) := rfl
      simp only [emitVal, List.length_cons, List.length_append, hv]
      omega
  | obj fields =>
    cases fields with
    | nil => simp [costV, costObj, emitVal]
    | cons k v tl =>
      have h := costObj_le_length k v tl (d + 1)
      have hv : costV (.obj (.cons k v tl)) = 1 + costObj (.cons k v tl) := rfl
      simp only [emitVal, List.length_cons, List.length_append, hv]
      omega
termination_by sizeOf v

theorem costArr_le_length (x : Json) (tl : JsonArr) (d : Nat) :
    costArr (.cons x tl) ≤ 1 + (emitArrItems (.cons x tl) d).length := by
  cases tl with
  | nil =>
    have h := costV_le_length x d
    have hv : costArr (.cons x .nil) = 1 + costV x + 0 := rfl
    simp only [emitArrItems, List.length_append, hv]
    omega
  | cons y tl' =>
    have h1 := costV_le_length x d
    have h2 := costArr_le_length y tl' d
    have hv : costArr (.cons x (.cons y tl'))
        = 1 + costV x + costArr (.cons y tl') := rfl
    simp only [emitArrItems, List.length_append, List.length_cons, hv]
    omega
termination_by sizeOf (JsonArr.cons x tl)

theorem costObj_le_length (k : String) (v : Json) (tl : JsonObj) (d : Nat) :
    costObj (.cons k v tl) ≤ 1 + (emitObjItems (.cons k v tl) d).length := by
  cases tl with
  | nil =>
    have h := costV_le_length v d
    have hv : costObj (.cons k v .nil) = 1 + costV v + 0 := rfl
    simp only [emitObjItems, List.length_append, List.length_cons, hv]
    omega
  | cons k2 v2 tl2 =>
    have h1 := costV_le_length v d
    have h2 := costObj_le_length k2 v2 tl2 d
    have hv : costObj (.cons k v (.cons k2 v2 tl2))
        = 1 + costV v + costObj (.cons k2 v2 tl2) := rfl
    simp only [emitObjItems, List.length_append, List.length_cons, hv]
    omega
termination_by sizeOf (JsonObj.cons k v tl)

end

/-- `JSON.parse` inverts `JSON.stringify(·, null, 4)` on every value. -/
theorem Json.parse_stringify (v : Json) : Json.parse (Json.stringify v) = some v := by
  have hdata : (Json.stringify v).data = emitVal v 0 := rfl
  have hfuel : costV v ≤ (emitVal v 0).length + 1 := by
    have := costV_le_length v 0
    omega
  have h := parseVal_emit v ((emitVal v 0).length + 1) 0 [] hfuel rfl
  rw [List.append_nil] at h
  have hskip : skipWs (emitVal v 0) = emitVal v 0 := by
    have := skipWs_emit v 0 []
    simpa using this
  unfold Json.parse
  rw [hdata, hskip, h]
  simp [skipWs]

/-- One stored object: body content as read back by a consumer (a put with no
body stores empty content), the content type, and the put time. -/
structure S3Object where
  content : String
  contentType : Option String
  lastModified : Nat
deriving DecidableEq

/-- The bucket contents: an association list from keys to objects. -/
abbrev Store := List (String × S3Object)

/-- Fetch the object at a key, if present. -/
def storeGet : Store → String → Option S3Object
  | [], _ => none
  | (k, o) :: st, key => if k = key then some o else storeGet st key

/-- Write an object at a key, creating it or overwriting in place. -/
def storePut : Store → String → S3Object → Store
  | [], key, o => [(key, o)]
  | (k, w) :: st, key, o =>
    if k = key then (k, o) :: st else (k, w) :: storePut st key o

/-- Batched delete: drop every listed key. -/
def storeDeleteKeys (st : Store) (keys : List String) : Store :=
  st.filter (fun kv => !(keys.contains kv.1))

/-- Does the string contain the delimiter? -/
def hasSlash (s : String) : Bool :=
  s.data.contains '/'

/-- Longest slash-free prefix; this is also `s.split("/")[0]` of JavaScript,
since the first element of a split is everything before the first separator
(or the whole string when the separator does not occur). -/
def upToSlash (s : String) : String :=
  String.mk (s.data.takeWhile (fun c => c != '/'))

/-- Remainder of `s` after the leading occurrence of `p` (used only when `p`
begins `s`). -/
def dropPfx (p s : String) : String :=
  if p.data.isPrefixOf s.data then String.mk (s.data.drop p.data.length) else s

/-- An entry of a storage listing response; both SDK fields are optional. -/
structure S3ObjectSummary where
  Key : Option String
  LastModified : Option Nat
deriving DecidableEq

/-- A grouped common prefix of a delimiter listing.  The SDK field is named
`Prefix`; that word collides with a Lean notation keyword, so the field is
`pfx` here. -/
structure S3CommonPrefix where
  pfx : Option String
deriving DecidableEq

/-- Response shape of the delimiter-grouped listing. -/
structure ListObjectsV2Output where
  Contents : Option (List S3ObjectSummary)
  CommonPrefixes : Option (List S3CommonPrefix)
deriving DecidableEq

/-- Response shape of the plain (no delimiter) listing. -/
structure ListObjectsOutput where
  Contents : Option (List S3ObjectSummary)
deriving DecidableEq

/-- Modelled from the spec: the external object-storage listing primitive
(spec section 6) with an optional key prefix and the single-level delimiter
`/`.  Keys extending the queried prefix whose remainder is slash-free are
returned as leaf `Contents`; the others are grouped, without duplicates, into
`CommonPrefixes` of the form prefix-plus-next-segment-plus-slash.  A section
with no entries is omitted from the response. -/
def s3ListObjectsV2 (st : Store) (pfxOpt : Option String) : ListObjectsV2Output :=
  let p := pfxOpt.getD ""
  let matching := st.filter (fun kv => p.data.isPrefixOf kv.1.data)
  let leaves := matching.filter (fun kv => !hasSlash (dropPfx p kv.1))
  let cps := (matching.filterMap (fun kv =>
      let r := dropPfx p kv.1
      if hasSlash r then some (p ++ upToSlash r ++ "/") else none)).dedup
  { Contents :=
      if leaves.isEmpty then none
      else some (leaves.map (fun kv =>
        { Key := some kv.1, LastModified := some kv.2.lastModified })),
    CommonPrefixes :=
      if cps.isEmpty then none
      else some (cps.map (fun q => { pfx := some q })) }

/-- Modelled from the spec: the plain listing primitive, every key extending
the queried prefix. -/
def s3ListObjects (st : Store) (pfxOpt : Option String) : ListObjectsOutput :=
  let p := pfxOpt.getD ""
  let matching := st.filter (fun kv => p.data.isPrefixOf kv.1.data)
  { Contents :=
      if matching.isEmpty then none
      else some (matching.map (fun kv =>
        { Key := some kv.1, LastModified := some kv.2.lastModified })) }

/-- The error outcomes a store operation can surface: a `tiny-invariant`
violation, a fetch of an absent key, or a JSON parse failure. -/
inductive S3dbError where
  | invariantViolation (msg : String)
  | noSuchKey (key : String)
  | parseError (body : String)
deriving DecidableEq

/-- The store handle: the two names bound at initialization time.  Both start
unbound on a raw instance. -/
structure S3db where
  bucketName : Option String
  collectionName : Option String
deriving DecidableEq

/-- `invariant(x, ...)` on an optional string field: passes exactly when the
field is present and nonempty (the empty string is falsy). -/
def optTruthy : Option String → Bool
  | none => false
  | some s => s != ""

/-- A storage command issued by an operation, for stating how many calls an
operation makes and with which arguments. -/
inductive S3Cmd where
  | listObjects (pfxOpt : Option String)
  | deleteObjects (keys : List String)
deriving DecidableEq

/-- A media file: browser `File` with its name and its bytes. -/
structure DBFile where
  name : String
  content : String
deriving DecidableEq

/-- One leaf object of a listing result: name and last-modified stamp. -/
structure DBEntryObject where
  name : String
  lastModified : Nat
deriving DecidableEq

/-- Result shape of `getDBEntries`. -/
structure EntriesResult where
  folderNames : List String
  objects : List DBEntryObject
deriving DecidableEq

/-- JavaScript `Set` insertion (the source spreads the set back into an
array, which keeps insertion order and drops repeats). -/
def setAdd (l : List String) (x : String) : List String :=
  if x ∈ l then l else l ++ [x]

/-- `String.prototype.replace` with a string pattern and empty replacement:
remove the first occurrence of `pat`. -/
def listReplaceFirst : List Char → List Char → List Char
  | [], _ => []
  | c :: cs, pat =>
    if pat.isPrefixOf (c :: cs) then (c :: cs).drop pat.length
    else c :: listReplaceFirst cs pat

/-- `s.replace(pat, "")`. -/
def jsReplaceFirstEmpty (s pat : String) : String :=
  String.mk (listReplaceFirst s.data pat.data)

/-- One step of the folder-name accumulation of `getDBEntries`: a truthy
common prefix is stripped of the queried prefix, cut at the next delimiter,
and added to the set. -/
def folderStep (p0 : String) (acc : List String) (cp : S3CommonPrefix) : List String :=
  match cp.pfx with
  | some p =>
    if p != "" then setAdd acc (upToSlash (jsReplaceFirstEmpty p p0)) else acc
  | none => acc

/-- The response post-processing of the canonical `getDBEntries`: collect the
`Contents` entries that carry a truthy key and a last-modified stamp, and
collect into a `Set` the common prefixes with the queried prefix removed and
cut at the next delimiter (`Prefix.replace(prefix || "", "").split("/")[0]`).
A missing `Contents` or `CommonPrefixes` section contributes nothing. -/
def processListing (pfxOpt : Option String) (res : ListObjectsV2Output) : EntriesResult :=
  let matchObjects :=
    match res.Contents with
    | none => []
    | some contents =>
      contents.foldl (fun acc o =>
        match o.Key, o.LastModified with
        | some name, some lm =>
          if name != "" then acc ++ [{ name := name, lastModified := lm }] else acc
        | _, _ => acc) []
  let matchFolders :=
    match res.CommonPrefixes with
    | none => []
    | some cps => cps.foldl (folderStep (pfxOpt.getD "")) []
  { folderNames := matchFolders, objects := matchObjects }

/-- `getDBEntries` split at the network boundary: the bucket invariant, then
the post-processing of whatever response the storage service produced. -/
def getDBEntriesFrom (db : S3db) (res : ListObjectsV2Output) (pfxOpt : Option String) :
    Except S3dbError EntriesResult :=
  if optTruthy db.bucketName then .ok (processListing pfxOpt res)
  else .error (.invariantViolation "Invalid bucketName")

/-- `getDBEntries`: list one level under the optional prefix with delimiter
`/` and post-process. -/
def getDBEntries (db : S3db) (st : Store) (pfxOpt : Option String) :
    Except S3dbError EntriesResult :=
  getDBEntriesFrom db (s3ListObjectsV2 st pfxOpt) pfxOpt

/-- `getDBDocumentIds`: the folder names directly under the collection. -/
def getDBDocumentIds (db : S3db) (st : Store) : Except S3dbError (List String) :=
  if optTruthy db.collectionName then
    (getDBEntries db st (some (db.collectionName.getD "" ++ "/"))).map
      (fun r => r.folderNames)
  else .error (.invariantViolation "Invalid collectionName")

/-- `getDBEntry`: fetch one object and parse its body as JSON.  `getObject`
on an absent key fails at the storage layer; a body that is not JSON makes
`JSON.parse` throw. -/
def getDBEntry (db : S3db) (st : Store) (key : String) : Except S3dbError Json :=
  if optTruthy db.bucketName then
    match storeGet st key with
    | none => .error (.noSuchKey key)
    | some obj =>
      match Json.parse obj.content with
      | some v => .ok v
      | none => .error (.parseError obj.content)
  else .error (.invariantViolation "Invalid bucketName")

/-- `getDBCollectionEntries`: entries under `collection/suffix` (note: the
caller chooses whether the suffix ends with a delimiter). -/
def getDBCollectionEntries (db : S3db) (st : Store) (prefixInCollection : String) :
    Except S3dbError EntriesResult :=
  if optTruthy db.collectionName then
    getDBEntries db st (some (db.collectionName.getD "" ++ "/" ++ prefixInCollection))
  else .error (.invariantViolation "Invalid collectionName")

/-- `getDBCollectionEntry`: one object under the collection. -/
def getDBCollectionEntry (db : S3db) (st : Store) (keyInCollection : String) :
    Except S3dbError Json :=
  if optTruthy db.collectionName then
    getDBEntry db st (db.collectionName.getD "" ++ "/" ++ keyInCollection)
  else .error (.invariantViolation "Invalid collectionName")

/-- `getDBDocumentData`: parse the body stored at `id/data.json` inside the
collection; the parsed value is returned as is. -/
def getDBDocumentData (db : S3db) (st : Store) (id : String) : Except S3dbError Json :=
  getDBCollectionEntry db st (id ++ "/data.json")

/-- `getDBDocumentMedia`: list under `collection/id` (no trailing delimiter)
and keep the objects whose name differs from `data.json`. -/
def getDBDocumentMedia (db : S3db) (st : Store) (id : String) :
    Except S3dbError (List DBEntryObject) :=
  (getDBCollectionEntries db st id).map
    (fun r => r.objects.filter (fun o => o.name != "data.json"))

/-- The request a signed URL is generated for. -/
structure SignedUrlRequest where
  bucket : String
  key : String
deriving DecidableEq

/-- JS template interpolation of a possibly-undefined string: an unbound
field renders as the text `undefined`. -/
def jsTemplateOpt : Option String → String
  | none => "undefined"
  | some s => s

/-- `getDBDocumentUrl`: checks only the bucket binding, then hands the key
built from the (possibly unbound) collection name to the signing facility. -/
def getDBDocumentUrl (db : S3db) (id : String) : Except S3dbError SignedUrlRequest :=
  if optTruthy db.bucketName then
    .ok { bucket := db.bucketName.getD "",
          key := jsTemplateOpt db.collectionName ++ "/" ++ id ++ "/data.json" }
  else .error (.invariantViolation "Invalid bucketName")

/-- `uploadDBCollectionEntry`: put a (possibly empty) text body at
`collection/keyInCollection`. -/
def uploadDBCollectionEntry (db : S3db) (st : Store) (keyInCollection : String)
    (body : Option String) (now : Nat) : Except S3dbError Store :=
  if optTruthy db.bucketName then
    if optTruthy db.collectionName then
      .ok (storePut st (db.collectionName.getD "" ++ "/" ++ keyInCollection)
        { content := body.getD "", contentType := none, lastModified := now })
    else .error (.invariantViolation "Invalid collectionName")
  else .error (.invariantViolation "Invalid bucketName")

/-- Split on a single-character separator, as `String.prototype.split` does
with a one-character string pattern; the result is never empty. -/
def splitOnChar (sep : Char) : List Char → List (List Char)
  | [] => [[]]
  | c :: cs =>
    match splitOnChar sep cs with
    | [] => [[]]
    | seg :: rest => if c = sep then [] :: seg :: rest else (c :: seg) :: rest

/-- `name.split(".")`. -/
def jsSplitDots (name : String) : List String :=
  (splitOnChar '.' name.data).map String.mk

/-- `file.name.split(".")[1]` under template interpolation: the second
dot-separated segment of the name, or the text `undefined` when the name has
fewer than two segments. -/
def jsExtIdx1 (name : String) : String :=
  match (jsSplitDots name).get? 1 with
  | some s => s
  | none => "undefined"

/-- `uploadDBCollectionMedia`: put the file at `collection/keyInCollection`
with content type `image/` followed by the second dot-separated segment of
the file name. -/
def uploadDBCollectionMedia (db : S3db) (st : Store) (keyInCollection : String)
    (file : DBFile) (now : Nat) : Except S3dbError Store :=
  if optTruthy db.bucketName then
    if optTruthy db.collectionName then
      .ok (storePut st (db.collectionName.getD "" ++ "/" ++ keyInCollection)
        { content := file.content,
          contentType := some ("image/" ++ jsExtIdx1 file.name),
          lastModified := now })
    else .error (.invariantViolation "Invalid collectionName")
  else .error (.invariantViolation "Invalid bucketName")

mutual

/-- JavaScript string coercion of a JSON value under template interpolation
(`String(x)`): arrays join their elements with commas, objects render as
`[object Object]`. -/
def jsTemplate : Json → String
  | .null => "null"
  | .bool true => "true"
  | .bool false => "false"
  | .num n => intDecString n
  | .str s => s
  | .arr l => jsArrJoin l
  | .obj _ => "[object Object]"

/-- `Array.prototype.toString`: comma join, with null elements rendered
empty. -/
def jsArrJoin : JsonArr → String
  | .nil => ""
  | .cons x tl =>
    (match x with
     | .null => ""
     | _ => jsTemplate x)
      ++ (match tl with
          | .nil => ""
          | _ => "," ++ jsArrJoin tl)

end

/-- The branch condition of `uploadDBDocument`:
`!("id" in document) || !document.id`. -/
def noTruthyId (document : JsonObj) : Bool :=
  match document.lookup "id" with
  | none => true
  | some v => !jsTruthy v

/-- The fresh-id path of `uploadDBDocument`: write the empty folder
placeholder `freshId/`, then the serialized document (with its `id` field set
to the fresh id) at `freshId/data.json`, and return the fresh id. -/
def uploadDBDocumentFresh (db : S3db) (st : Store) (document : JsonObj)
    (freshId : String) (now : Nat) : Except S3dbError (Json × Store) := do
  let st1 ← uploadDBCollectionEntry db st (freshId ++ "/") none now
  let st2 ← uploadDBCollectionEntry db st1 (freshId ++ "/data.json")
    (some (Json.stringify (.obj (document.set "id" (.str freshId))))) now
  return (.str freshId, st2)

/-- `uploadDBDocument`: `let id = uuid()` is modelled by the oracle argument
`freshId`.  A document with no truthy `id` field takes the fresh path;
otherwise the supplied id is reused unchanged, with no existence check, and
the document (with its `id` field set to that value) is serialized with
`JSON.stringify(..., null, 4)` and written at `id/data.json` inside the
collection, overwriting whatever was there. -/
def uploadDBDocument (db : S3db) (st : Store) (document : JsonObj)
    (freshId : String) (now : Nat) : Except S3dbError (Json × Store) :=
  if noTruthyId document then uploadDBDocumentFresh db st document freshId now
  else
    match document.lookup "id" with
    | some v => do
      let st1 ← uploadDBCollectionEntry db st (jsTemplate v ++ "/data.json")
        (some (Json.stringify (.obj (document.set "id" v)))) now
      return (v, st1)
    | none => uploadDBDocumentFresh db st document freshId now

/-- `uploadDBDocumentMedia`: one put per file at `id/fileName` inside the
collection.  The source fans the puts out with `Promise.all`; the keys are
independent, so the fan-out is modelled as sequential composition. -/
def uploadDBDocumentMedia (db : S3db) (st : Store) (id : String)
    (media : List DBFile) (now : Nat) : Except S3dbError Store :=
  match media with
  | [] => .ok st
  | file :: rest => do
    let st1 ← uploadDBCollectionMedia db st (id ++ "/" ++ file.name) file now
    uploadDBDocumentMedia db st1 id rest now

/-- `deleteDBDocumentById`: list everything under `collection/id/` with the
plain listing, fail if nothing is there, otherwise issue one batched delete
of exactly the listed keys.  The second component records the storage
commands issued. -/
def deleteDBDocumentById (db : S3db) (st : Store) (id : String) :
    (Except S3dbError Store) × List S3Cmd :=
  if optTruthy db.bucketName then
    if optTruthy db.collectionName then
      let p := db.collectionName.getD "" ++ "/" ++ id ++ "/"
      let res := s3ListObjects st (some p)
      let objects := res.Contents.map (fun cs => cs.map (fun o => o.Key.getD ""))
      match objects with
      | some keys =>
        if keys.length > 0 then
          (.ok (storeDeleteKeys st keys),
            [S3Cmd.listObjects (some p), S3Cmd.deleteObjects keys])
        else
          (.error (.invariantViolation
              ("No objects found in the id<" ++ id ++ ">. Nothing to delete.")),
            [S3Cmd.listObjects (some p)])
      | none =>
        (.error (.invariantViolation
            ("No objects found in the id<" ++ id ++ ">. Nothing to delete.")),
          [S3Cmd.listObjects (some p)])
    else (.error (.invariantViolation "Invalid collectionName"), [])
  else (.error (.invariantViolation "Invalid bucketName"), [])

/-- The three environment variables the configuration resolver reads. -/
structure S3dbEnv where
  S3_DB_REGION : Option String
  S3_DB_ACCESS_KEY_ID : Option String
  S3_DB_SECRET_ACCESS_KEY : Option String
deriving DecidableEq

/-- The optional explicit parameters of `getS3dbConfig`. -/
structure GetS3dbConfigArgs where
  awsRegion : Option String := none
  awsAccessKeyId : Option String := none
  awsSecretAccessKey : Option String := none
deriving DecidableEq

/-- The credentials part of the client configuration. -/
structure S3Credentials where
  accessKeyId : String
  secretAccessKey : String
deriving DecidableEq

/-- The client configuration `getS3dbConfig` returns. -/
structure S3ClientConfig where
  region : String
  credentials : S3Credentials
deriving DecidableEq

/-- One destructuring default of `getS3dbConfig`: the environment variable
substitutes exactly when the explicit parameter is absent. -/
def resolveParam (explicit fallbackEnv : Option String) : Option String :=
  match explicit with
  | some v => some v
  | none => fallbackEnv

/-- `getS3dbConfig` from `src/util.ts`: explicit parameter first, environment
variable second (each destructuring default fires exactly when the property
is absent), then the invariant that all three resolved values are truthy.
A pure function of its arguments and the environment; no storage client is
constructed and no request is issued. -/
def getS3dbConfig (env : S3dbEnv) (args : Option GetS3dbConfigArgs) :
    Except S3dbError S3ClientConfig :=
  let a := args.getD {}
  let awsRegion := resolveParam a.awsRegion env.S3_DB_REGION
  let awsAccessKeyId := resolveParam a.awsAccessKeyId env.S3_DB_ACCESS_KEY_ID
  let awsSecretAccessKey := resolveParam a.awsSecretAccessKey env.S3_DB_SECRET_ACCESS_KEY
  if optTruthy awsRegion && optTruthy awsAccessKeyId && optTruthy awsSecretAccessKey then
    .ok { region := awsRegion.getD "",
          credentials := { accessKeyId := awsAccessKeyId.getD "",
                           secretAccessKey := awsSecretAccessKey.getD "" } }
  else
    .error (.invariantViolation
      "AWS credentials are missing or invalid. Please ensure that awsRegion, awsAccessKeyId, and awsSecretAccessKey are provided.")

theorem storeGet_storePut_self (st : Store) (k : String) (o : S3Object) :
    storeGet (storePut st k o) k = some o := by
  induction st with
  | nil => simp [storePut, storeGet]
  | cons kv st ih =>
    obtain ⟨k', w⟩ := kv
    by_cases h : k' = k
    · simp [storePut, h, storeGet]
    · simp [storePut, h, storeGet, ih]

theorem storeGet_storePut_ne (st : Store) (k : String) (o : S3Object) (k' : String)
    (h : k ≠ k') : storeGet (storePut st k o) k' = storeGet st k' := by
  induction st with
  | nil => simp [storePut, storeGet, h]
  | cons kv st ih =>
    obtain ⟨k0, w⟩ := kv
    by_cases h0 : k0 = k
    · subst h0
      simp [storePut, storeGet, h]
    · simp [storePut, h0, storeGet, ih]

theorem listReplaceFirst_append (p r : List Char) : listReplaceFirst (p ++ r) p = r := by
  cases hp : p ++ r with
  | nil =>
    have h1 : p = [] := by
      cases p with
      | nil => rfl
      | cons a as => simp at hp
    have h2 : r = [] := by
      subst h1
      simpa using hp
    subst h1; subst h2
    rfl
  | cons c cs =>
    rw [listReplaceFirst]
    have hpre : p.isPrefixOf (c :: cs) = true := by
      rw [← hp, List.isPrefixOf_iff_prefix]
      exact List.prefix_append p r
    rw [if_pos hpre, ← hp, List.drop_left]

theorem takeWhile_append_slash : ∀ (l r : List Char), l.contains '/' = false →
    (l ++ '/' :: r).takeWhile (fun c => c != '/') = l
  | [], r, _ => by simp [List.takeWhile]
  | c :: l, r, h => by
    have hc : c ≠ '/' := by
      intro hcc
      subst hcc
      simp [List.contains_cons] at h
    have hl : l.contains '/' = false := by
      simp [List.contains_cons] at h
      simp [h.2]
    simp only [List.cons_append, List.takeWhile]
    have hbe : (c != '/') = true := by simp [hc]
    rw [hbe]
    show c :: (l ++ '/' :: r).takeWhile (fun c => c != '/') = c :: l
    rw [takeWhile_append_slash l r hl]

theorem strip_segment (p0 seg : String) (h : hasSlash seg = false) :
    upToSlash (jsReplaceFirstEmpty (p0 ++ seg ++ "/") p0) = seg := by
  have hdata : (p0 ++ seg ++ "/").data = p0.data ++ (seg.data ++ '/' :: []) := by
    show (p0.data ++ seg.data) ++ ['/'] = p0.data ++ (seg.data ++ '/' :: [])
    simp
  unfold jsReplaceFirstEmpty
  rw [hdata]
  show upToSlash (String.mk (listReplaceFirst (p0.data ++ (seg.data ++ '/' :: [])) p0.data)) = seg
  rw [listReplaceFirst_append]
  unfold upToSlash
  show String.mk ((seg.data ++ '/' :: []).takeWhile (fun c => c != '/')) = seg
  rw [takeWhile_append_slash seg.data [] h]
  try exact string_mk_data seg

theorem mem_setAdd (l : List String) (x y : String) :
    y ∈ setAdd l x ↔ y ∈ l ∨ y = x := by
  unfold setAdd
  split_ifs with hx
  · constructor
    · exact fun h => Or.inl h
    · rintro (h | rfl)
      · exact h
      · exact hx
  · simp

theorem setAdd_nodup (l : List String) (x : String) (h : l.Nodup) :
    (setAdd l x).Nodup := by
  unfold setAdd
  split_ifs with hx
  · exact h
  · rw [← List.concat_eq_append]
    exact h.concat hx

theorem foldl_folderStep_nodup (p0 : String) :
    ∀ (cps : List S3CommonPrefix) (acc : List String), acc.Nodup →
      (cps.foldl (folderStep p0) acc).Nodup
  | [], acc, h => h
  | cp :: cps, acc, h => by
    apply foldl_folderStep_nodup p0 cps
    unfold folderStep
    cases cp.pfx with
    | none => exact h
    | some p =>
      dsimp only
      split_ifs with hp
      · exact setAdd_nodup _ _ h
      · exact h

theorem mem_foldl_folderStep (p0 : String) :
    ∀ (cps : List S3CommonPrefix) (acc : List String) (y : String),
      y ∈ cps.foldl (folderStep p0) acc →
      y ∈ acc ∨ ∃ cp ∈ cps, ∃ p, cp.pfx = some p ∧ p ≠ ""
        ∧ y = upToSlash (jsReplaceFirstEmpty p p0)
  | [], acc, y, h => Or.inl h
  | cp :: cps, acc, y, h => by
    rcases mem_foldl_folderStep p0 cps (folderStep p0 acc cp) y h with hin | ⟨cp', hcp', hex⟩
    · unfold folderStep at hin
      rcases hpfx : cp.pfx with _ | p
      · rw [hpfx] at hin
        exact Or.inl hin
      · rw [hpfx] at hin
        dsimp only at hin
        by_cases hp : p != ""
        · rw [if_pos hp] at hin
          rcases (mem_setAdd _ _ _).mp hin with h1 | h2
          · exact Or.inl h1
          · refine Or.inr ⟨cp, List.mem_cons_self cp cps, p, hpfx, ?_, h2⟩
            simpa using hp
        · rw [if_neg hp] at hin
          exact Or.inl hin
    · exact Or.inr ⟨cp', List.mem_cons_of_mem cp hcp', hex⟩

/-- C1: on a bound store, a document with no non-empty `id` field is uploaded
under the freshly generated UUID, and a document with a truthy `id` reuses
that id unchanged, with no existence check; in both cases the full document
with the resolved `id` field, serialized as JSON, is stored at the key
`collection/id/data.json`, replacing whatever any prior store held there, and
the resolved id is returned. -/
theorem claim_C1_uploadDocument (b c : String) (hb : b ≠ "") (hc : c ≠ "")
    (st : Store) (document : JsonObj) (freshId : String) (now : Nat) :
    (noTruthyId document = true →
      ∃ st', uploadDBDocument ⟨some b, some c⟩ st document freshId now
          = .ok (.str freshId, st')
        ∧ storeGet st' (c ++ "/" ++ (freshId ++ "/data.json"))
            = some { content := Json.stringify (.obj (document.set "id" (.str freshId))),
                     contentType := none, lastModified := now })
    ∧ (∀ v, document.lookup "id" = some v → jsTruthy v = true →
      ∃ st', uploadDBDocument ⟨some b, some c⟩ st document freshId now = .ok (v, st')
        ∧ storeGet st' (c ++ "/" ++ (jsTemplate v ++ "/data.json"))
            = some { content := Json.stringify (.obj (document.set "id" v)),
                     contentType := none, lastModified := now }) := by
  have hb' : optTruthy (some b) = true := by simp [optTruthy, hb]
  have hc' : optTruthy (some c) = true := by simp [optTruthy, hc]
  constructor
  · intro h
    have heq : uploadDBDocument ⟨some b, some c⟩ st document freshId now
        = .ok (.str freshId,
            storePut (storePut st (c ++ "/" ++ (freshId ++ "/"))
                { content := "", contentType := none, lastModified := now })
              (c ++ "/" ++ (freshId ++ "/data.json"))
              { content := Json.stringify (.obj (document.set "id" (.str freshId))),
                contentType := none, lastModified := now }) := by
      rw [uploadDBDocument, if_pos h, uploadDBDocumentFresh]
      simp only [uploadDBCollectionEntry, hb', hc', if_true]
      rfl
    exact ⟨_, heq, storeGet_storePut_self _ _ _⟩
  · intro v hlook htrue
    have hno : noTruthyId document = false := by simp [noTruthyId, hlook, htrue]
    have heq : uploadDBDocument ⟨some b, some c⟩ st document freshId now
        = .ok (v,
            storePut st (c ++ "/" ++ (jsTemplate v ++ "/data.json"))
              { content := Json.stringify (.obj (document.set "id" v)),
                contentType := none, lastModified := now }) := by
      rw [uploadDBDocument, if_neg (by simp [hno]), hlook]
      simp only [uploadDBCollectionEntry, hb', hc', if_true]
      rfl
    exact ⟨_, heq, storeGet_storePut_self _ _ _⟩

theorem claim_C1_witness :
    ("b" : String) ≠ "" ∧ ("c" : String) ≠ ""
    ∧ (∃ st', uploadDBDocument ⟨some "b", some "c"⟩ [] (.cons "t" (.str "A") .nil) "u1" 7
          = .ok (.str "u1", st')
        ∧ storeGet st' ("c" ++ "/" ++ ("u1" ++ "/data.json"))
            = some { content := Json.stringify
                       (.obj (.cons "t" (.str "A") (.cons "id" (.str "u1") .nil))),
                     contentType := none, lastModified := 7 })
    ∧ (∃ st', uploadDBDocument ⟨some "b", some "c"⟩ [] (.cons "id" (.str "doc") .nil) "u1" 7
          = .ok (.str "doc", st')
        ∧ storeGet st' ("c" ++ "/" ++ (jsTemplate (.str "doc") ++ "/data.json"))
            = some { content := Json.stringify (.obj (.cons "id" (.str "doc") .nil)),
                     contentType := none, lastModified := 7 }) :=
  ⟨by decide, by decide,
    (claim_C1_uploadDocument "b" "c" (by decide) (by decide) []
      (.cons "t" (.str "A") .nil) "u1" 7).1 (by decide),
    (claim_C1_uploadDocument "b" "c" (by decide) (by decide) []
      (.cons "id" (.str "doc") .nil) "u1" 7).2 (.str "doc") (by decide) (by decide)⟩

/-- C2: round-trip on a bound store: whenever `uploadDBDocument` returns the
string id `s`, reading that id back through `getDBDocumentData` yields
exactly the uploaded document with its `id` field added or overwritten to
`s`. -/
theorem claim_C2_roundTrip (b c : String) (hb : b ≠ "") (hc : c ≠ "")
    (st : Store) (document : JsonObj) (freshId s : String) (now : Nat) (st' : Store)
    (h : uploadDBDocument ⟨some b, some c⟩ st document freshId now = .ok (.str s, st')) :
    getDBDocumentData ⟨some b, some c⟩ st' s
      = .ok (.obj (document.set "id" (.str s))) := by
  have hb' : optTruthy (some b) = true := by simp [optTruthy, hb]
  have hc' : optTruthy (some c) = true := by simp [optTruthy, hc]
  by_cases hno : noTruthyId document = true
  · obtain ⟨st2, heq, hget⟩ :=
      (claim_C1_uploadDocument b c hb hc st document freshId now).1 hno
    rw [heq] at h
    have hs : freshId = s ∧ st2 = st' := by
      simpa only [Except.ok.injEq, Prod.mk.injEq, Json.str.injEq] using h
    obtain ⟨h1, h2⟩ := hs
    subst h1
    subst h2
    simp only [getDBDocumentData, getDBCollectionEntry, getDBEntry, hb', hc', if_true,
      Option.getD_some, hget, Json.parse_stringify]
  · have hfalse : noTruthyId document = false := by
      cases hx : noTruthyId document
      · rfl
      · exact absurd hx hno
    obtain ⟨v, hlook, htrue⟩ : ∃ v, document.lookup "id" = some v ∧ jsTruthy v = true := by
      unfold noTruthyId at hfalse
      cases hl : document.lookup "id" with
      | none => rw [hl] at hfalse; simp at hfalse
      | some v =>
        rw [hl] at hfalse
        refine ⟨v, rfl, ?_⟩
        simpa using hfalse
    obtain ⟨st2, heq, hget⟩ :=
      (claim_C1_uploadDocument b c hb hc st document freshId now).2 v hlook htrue
    rw [heq] at h
    have hs : v = .str s ∧ st2 = st' := by
      simpa only [Except.ok.injEq, Prod.mk.injEq] using h
    obtain ⟨h1, h2⟩ := hs
    subst h1
    subst h2
    have htmpl : jsTemplate (.str s) = s := rfl
    rw [htmpl] at hget
    simp only [getDBDocumentData, getDBCollectionEntry, getDBEntry, hb', hc', if_true,
      Option.getD_some, hget, Json.parse_stringify]

theorem claim_C2_witness :
    getDBDocumentData ⟨some "b", some "c"⟩
        [("c/u1/", { content := "", contentType := none, lastModified := 0 }),
         ("c/u1/data.json",
           { content := Json.stringify
               (.obj (.cons "title" (.str "A") (.cons "id" (.str "u1") .nil))),
             contentType := none, lastModified := 0 })]
        "u1"
      = .ok (.obj (.cons "title" (.str "A") (.cons "id" (.str "u1") .nil))) :=
  claim_C2_roundTrip "b" "c" (by decide) (by decide) [] (.cons "title" (.str "A") .nil)
    "u1" "u1" 0 _ rfl

/-- C10: `getDBDocumentData` validates nothing about the document shape: any
stored body that parses as JSON is returned as is, object or not, `id` field
or not. -/
theorem claim_C10_noValidation (b c : String) (hb : b ≠ "") (hc : c ≠ "")
    (st : Store) (id : String) (obj : S3Object) (v : Json)
    (hstore : storeGet st (c ++ "/" ++ (id ++ "/data.json")) = some obj)
    (hparse : Json.parse obj.content = some v) :
    getDBDocumentData ⟨some b, some c⟩ st id = .ok v := by
  have hb' : optTruthy (some b) = true := by simp [optTruthy, hb]
  have hc' : optTruthy (some c) = true := by simp [optTruthy, hc]
  simp only [getDBDocumentData, getDBCollectionEntry, getDBEntry, hb', hc', if_true,
    Option.getD_some, hstore, hparse]

theorem claim_C10_witness :
    getDBDocumentData ⟨some "b", some "c"⟩
        [("c/x/data.json", { content := "42", contentType := none, lastModified := 0 })] "x"
      = .ok (.num 42) :=
  claim_C10_noValidation "b" "c" (by decide) (by decide) _ "x"
    { content := "42", contentType := none, lastModified := 0 } (.num 42)
    (by decide) (by decide)

/-- C3: on a bound store, `deleteDBDocumentById` first lists the objects
under `collection/id/`; with zero objects it fails with a not-found-style
error after the single list call, deleting nothing; with some objects it
issues exactly one batched delete carrying exactly the listed keys. -/
theorem claim_C3_deleteDocument (b c : String) (hb : b ≠ "") (hc : c ≠ "")
    (st : Store) (id : String) :
    (st.filter (fun kv => (c ++ "/" ++ id ++ "/").data.isPrefixOf kv.1.data) = [] →
       deleteDBDocumentById ⟨some b, some c⟩ st id
         = (.error (.invariantViolation
               ("No objects found in the id<" ++ id ++ ">. Nothing to delete.")),
            [S3Cmd.listObjects (some (c ++ "/" ++ id ++ "/"))]))
    ∧ (∀ keys,
        keys = (st.filter (fun kv => (c ++ "/" ++ id ++ "/").data.isPrefixOf kv.1.data)).map
          (fun kv => kv.1) →
        keys ≠ [] →
        deleteDBDocumentById ⟨some b, some c⟩ st id
          = (.ok (storeDeleteKeys st keys),
             [S3Cmd.listObjects (some (c ++ "/" ++ id ++ "/")),
              S3Cmd.deleteObjects keys])) := by
  have hb' : optTruthy (some b) = true := by simp [optTruthy, hb]
  have hc' : optTruthy (some c) = true := by simp [optTruthy, hc]
  constructor
  · intro hfil
    simp only [deleteDBDocumentById, hb', hc', if_true, Option.getD_some, s3ListObjects,
      hfil, List.isEmpty_nil, if_true, Option.map_none']
  · intro keys hkeys hne
    have hF : (st.filter (fun kv => (c ++ "/" ++ id ++ "/").data.isPrefixOf kv.1.data)).isEmpty
        = false := by
      cases hF : (st.filter
          (fun kv => (c ++ "/" ++ id ++ "/").data.isPrefixOf kv.1.data)).isEmpty
      · rfl
      · exfalso
        apply hne
        rw [hkeys, List.isEmpty_iff.mp hF]
        rfl
    have hlen : keys.length > 0 := List.length_pos.mpr hne
    subst hkeys
    simp only [deleteDBDocumentById, hb', hc', if_true, Option.getD_some, s3ListObjects, hF]
    rw [if_neg (by decide : ¬((false : Bool) = true))]
    simp only [Option.map_some', List.map_map]
    have hcomp : ((fun (o : S3ObjectSummary) => o.Key.getD "")
          ∘ (fun kv : String × S3Object =>
              ({ Key := some kv.1, LastModified := some kv.2.lastModified } : S3ObjectSummary)))
        = fun kv : String × S3Object => kv.1 := by
      funext kv
      rfl
    rw [hcomp]
    rw [if_pos hlen]

theorem claim_C3_witness :
    deleteDBDocumentById ⟨some "b", some "c"⟩
        [("c/doc/data.json", { content := "x", contentType := none, lastModified := 0 }),
         ("c/doc/img.png", { content := "y", contentType := none, lastModified := 1 }),
         ("c/other/data.json", { content := "z", contentType := none, lastModified := 2 })]
        "doc"
      = (.ok [("c/other/data.json",
               { content := "z", contentType := none, lastModified := 2 })],
         [S3Cmd.listObjects (some "c/doc/"),
          S3Cmd.deleteObjects ["c/doc/data.json", "c/doc/img.png"]]) := by
  have h := (claim_C3_deleteDocument "b" "c" (by decide) (by decide)
      [("c/doc/data.json", { content := "x", contentType := none, lastModified := 0 }),
       ("c/doc/img.png", { content := "y", contentType := none, lastModified := 1 }),
       ("c/other/data.json", { content := "z", contentType := none, lastModified := 2 })]
      "doc").2 ["c/doc/data.json", "c/doc/img.png"] (by decide) (by decide)
  exact h.trans (by rfl)

/-- C4: when every listed common prefix extends the queried prefix by one
slash-free segment and the delimiter (as the storage service guarantees),
the returned folder names are pairwise distinct and each one is exactly the
next path component of one listed common prefix, with the queried prefix
stripped. -/
theorem claim_C4_prefixStrip (pfxOpt : Option String) (res : ListObjectsV2Output)
    (hshape : ∀ cp ∈ res.CommonPrefixes.getD [], ∀ q, cp.pfx = some q →
       ∃ seg, hasSlash seg = false ∧ q = pfxOpt.getD "" ++ seg ++ "/") :
    (processListing pfxOpt res).folderNames.Nodup
    ∧ ∀ name ∈ (processListing pfxOpt res).folderNames,
        hasSlash name = false
        ∧ ∃ cp ∈ res.CommonPrefixes.getD [],
            cp.pfx = some (pfxOpt.getD "" ++ name ++ "/") := by
  have hfn : (processListing pfxOpt res).folderNames
      = match res.CommonPrefixes with
        | none => []
        | some cps => cps.foldl (folderStep (pfxOpt.getD "")) [] := rfl
  cases hcps : res.CommonPrefixes with
  | none =>
    rw [hfn, hcps]
    exact ⟨List.nodup_nil, by intro name hmem; simp at hmem⟩
  | some cps =>
    rw [hfn, hcps]
    refine ⟨foldl_folderStep_nodup _ cps [] List.nodup_nil, ?_⟩
    intro name hmem
    rcases mem_foldl_folderStep (pfxOpt.getD "") cps [] name hmem with hnil | ⟨cp, hcp, p, hp, hpne, hname⟩
    · simp at hnil
    · have hcp' : cp ∈ res.CommonPrefixes.getD [] := by
        rw [hcps]
        exact hcp
      obtain ⟨seg, hseg, hq⟩ := hshape cp hcp' p hp
      subst hq
      rw [strip_segment (pfxOpt.getD "") seg hseg] at hname
      subst hname
      refine ⟨hseg, cp, ?_, hp⟩
      simpa using hcp

theorem claim_C4_witness :
    ((processListing (some "c/")
        ⟨none, some [⟨some "c/doc/"⟩, ⟨some "c/doc/"⟩, ⟨some "c/img/"⟩]⟩).folderNames.Nodup
      ∧ ∀ name ∈ (processListing (some "c/")
          ⟨none, some [⟨some "c/doc/"⟩, ⟨some "c/doc/"⟩, ⟨some "c/img/"⟩]⟩).folderNames,
          hasSlash name = false
          ∧ ∃ cp ∈ (⟨none, some [⟨some "c/doc/"⟩, ⟨some "c/doc/"⟩, ⟨some "c/img/"⟩]⟩
              : ListObjectsV2Output).CommonPrefixes.getD [],
              cp.pfx = some (((some "c/" : Option String)).getD "" ++ name ++ "/"))
    ∧ (processListing (some "c/")
        ⟨none, some [⟨some "c/doc/"⟩, ⟨some "c/doc/"⟩, ⟨some "c/img/"⟩]⟩).folderNames
      = ["doc", "img"] :=
  ⟨claim_C4_prefixStrip (some "c/")
      ⟨none, some [⟨some "c/doc/"⟩, ⟨some "c/doc/"⟩, ⟨some "c/img/"⟩]⟩
      (by
        intro cp hcp q hq
        simp at hcp
        rcases hcp with rfl | rfl
        · refine ⟨"doc", by decide, ?_⟩
          simp only [Option.some.injEq] at hq
          rw [← hq]
          decide
        · refine ⟨"img", by decide, ?_⟩
          simp only [Option.some.injEq] at hq
          rw [← hq]
          decide),
    by decide⟩

/-- C5: a listing response with a missing `Contents` or `CommonPrefixes`
section is processed with that section as empty, and the lister succeeds on a
bucket-bound handle instead of failing. -/
theorem claim_C5_missingSections (b : String) (colOpt pfxOpt : Option String) (hb : b ≠ "")
    (cs : Option (List S3ObjectSummary)) (cps : Option (List S3CommonPrefix)) :
    (getDBEntriesFrom ⟨some b, colOpt⟩ ⟨none, cps⟩ pfxOpt
        = .ok (processListing pfxOpt ⟨none, cps⟩)
      ∧ (processListing pfxOpt ⟨none, cps⟩).objects = [])
    ∧ (getDBEntriesFrom ⟨some b, colOpt⟩ ⟨cs, none⟩ pfxOpt
        = .ok (processListing pfxOpt ⟨cs, none⟩)
      ∧ (processListing pfxOpt ⟨cs, none⟩).folderNames = []) := by
  have hb' : optTruthy (some b) = true := by simp [optTruthy, hb]
  refine ⟨⟨?_, rfl⟩, ⟨?_, rfl⟩⟩
  · simp [getDBEntriesFrom, hb']
  · simp [getDBEntriesFrom, hb']

theorem claim_C5_witness :
    (getDBEntriesFrom ⟨some "b", some "c"⟩ ⟨none, some [⟨some "c/doc/"⟩]⟩ (some "c/")
        = .ok (processListing (some "c/") ⟨none, some [⟨some "c/doc/"⟩]⟩)
      ∧ (processListing (some "c/") ⟨none, some [⟨some "c/doc/"⟩]⟩).objects = [])
    ∧ (getDBEntriesFrom ⟨some "b", some "c"⟩ ⟨some [⟨some "c/x", some 3⟩], none⟩ (some "c/")
        = .ok (processListing (some "c/") ⟨some [⟨some "c/x", some 3⟩], none⟩)
      ∧ (processListing (some "c/") ⟨some [⟨some "c/x", some 3⟩], none⟩).folderNames = []) :=
  claim_C5_missingSections "b" (some "c") (some "c/") (by decide)
    (some [⟨some "c/x", some 3⟩]) (some [⟨some "c/doc/"⟩])

/-- C6: the code, evaluated at a store that holds one media object
`c/doc/img.png` (and the body `c/doc/data.json`) under the document prefix,
returns the empty media list: the listing is issued with prefix `c/doc`
(no trailing delimiter), so every object under `c/doc/` rolls up into a
common prefix and no leaf survives; the claimed behavior would return the
`img.png` entry. -/
theorem claim_C6_bug_eval :
    getDBDocumentMedia ⟨some "b", some "c"⟩
        [("c/doc/data.json", { content := "d", contentType := none, lastModified := 0 }),
         ("c/doc/img.png", { content := "i", contentType := some "image/png", lastModified := 1 })]
        "doc"
      = .ok []
    ∧ storeGet
        [("c/doc/data.json", { content := "d", contentType := none, lastModified := 0 }),
         ("c/doc/img.png", { content := "i", contentType := some "image/png", lastModified := 1 })]
        "c/doc/img.png"
      = some { content := "i", contentType := some "image/png", lastModified := 1 } :=
  ⟨rfl, by decide⟩

/-- C7: the code, evaluated on a handle whose bucket is bound but whose
collection is not: `getDBDocumentUrl` does not fail with a precondition
error; it succeeds and builds the signing request for the key
`undefined/x/data.json`, interpolating the unbound collection name. -/
theorem claim_C7_bug_eval :
    getDBDocumentUrl ⟨some "b", none⟩ "x"
      = .ok { bucket := "b", key := "undefined/x/data.json" } := rfl

/-- C8: configuration resolution substitutes the environment variable for
every omitted parameter (explicit parameter first); it fails with the
configuration error exactly report when one of the three resolved values is
absent or empty, and otherwise returns the configuration carrying exactly
the three resolved values.  The resolver is a pure function: no client is
built and no request is issued on any path. -/
theorem claim_C8_configResolution (env : S3dbEnv) (args : Option GetS3dbConfigArgs) :
    ((optTruthy (resolveParam (args.getD {}).awsRegion env.S3_DB_REGION) = false
      ∨ optTruthy (resolveParam (args.getD {}).awsAccessKeyId env.S3_DB_ACCESS_KEY_ID) = false
      ∨ optTruthy (resolveParam (args.getD {}).awsSecretAccessKey env.S3_DB_SECRET_ACCESS_KEY)
          = false) →
      getS3dbConfig env args = .error (.invariantViolation
        "AWS credentials are missing or invalid. Please ensure that awsRegion, awsAccessKeyId, and awsSecretAccessKey are provided."))
    ∧ (∀ rv kv sv,
        resolveParam (args.getD {}).awsRegion env.S3_DB_REGION = some rv →
        resolveParam (args.getD {}).awsAccessKeyId env.S3_DB_ACCESS_KEY_ID = some kv →
        resolveParam (args.getD {}).awsSecretAccessKey env.S3_DB_SECRET_ACCESS_KEY = some sv →
        rv ≠ "" → kv ≠ "" → sv ≠ "" →
        getS3dbConfig env args
          = .ok { region := rv,
                  credentials := { accessKeyId := kv, secretAccessKey := sv } }) := by
  constructor
  · intro h
    rcases h with h | h | h <;> simp [getS3dbConfig, h]
  · intro rv kv sv h1 h2 h3 n1 n2 n3
    simp [getS3dbConfig, h1, h2, h3, optTruthy, n1, n2, n3]

theorem claim_C8_witness :
    getS3dbConfig ⟨none, some "k", some "s"⟩ (some { awsRegion := some "r" })
      = .ok { region := "r", credentials := { accessKeyId := "k", secretAccessKey := "s" } }
    ∧ getS3dbConfig ⟨none, none, none⟩ none
      = .error (.invariantViolation
          "AWS credentials are missing or invalid. Please ensure that awsRegion, awsAccessKeyId, and awsSecretAccessKey are provided.") :=
  ⟨(claim_C8_configResolution ⟨none, some "k", some "s"⟩ (some { awsRegion := some "r" })).2
      "r" "k" "s" rfl rfl rfl (by decide) (by decide) (by decide),
    (claim_C8_configResolution ⟨none, none, none⟩ none).1 (Or.inl rfl)⟩

/-- C9, counterexample to the claim as stated: two files whose final
extension is the same (`gz`) are stored with different content types
(`image/tar` versus `image/gz`), because the code uses the segment after the
first dot, not the final extension; so the final extension does not
determine the content type. -/
theorem claim_C9_counterexample :
    uploadDBDocumentMedia ⟨some "b", some "c"⟩ [] "doc"
        [{ name := "a.tar.gz", content := "x" }] 0
      = .ok [("c/doc/a.tar.gz",
          { content := "x", contentType := some "image/tar", lastModified := 0 })]
    ∧ uploadDBDocumentMedia ⟨some "b", some "c"⟩ [] "doc"
        [{ name := "a.gz", content := "y" }] 0
      = .ok [("c/doc/a.gz",
          { content := "y", contentType := some "image/gz", lastModified := 0 })]
    ∧ (jsSplitDots "a.tar.gz").getLast? = some "gz"
    ∧ (jsSplitDots "a.gz").getLast? = some "gz"
    ∧ ("image/tar" : String) ≠ "image/gz" :=
  ⟨rfl, rfl, by decide, by decide, by decide⟩

theorem uploadMedia_preserve (b c : String) (hb : b ≠ "") (hc : c ≠ "") (id : String)
    (now : Nat) : ∀ (media : List DBFile) (st1 st2 : Store),
    uploadDBDocumentMedia ⟨some b, some c⟩ st1 id media now = .ok st2 →
    ∀ k, (∀ g ∈ media, c ++ "/" ++ (id ++ "/" ++ g.name) ≠ k) →
    storeGet st2 k = storeGet st1 k
  | [], st1, st2, h, k, _ => by
    simp only [uploadDBDocumentMedia, Except.ok.injEq] at h
    rw [h]
  | file :: rest, st1, st2, h, k, hk => by
    have hb' : optTruthy (some b) = true := by simp [optTruthy, hb]
    have hc' : optTruthy (some c) = true := by simp [optTruthy, hc]
    rw [uploadDBDocumentMedia] at h
    simp only [uploadDBCollectionMedia, hb', hc', if_true] at h
    have hrec := uploadMedia_preserve b c hb hc id now rest
      (storePut st1 (c ++ "/" ++ (id ++ "/" ++ file.name))
        { content := file.content,
          contentType := some ("image/" ++ jsExtIdx1 file.name),
          lastModified := now })
      st2 (by exact h) k (fun g hg => hk g (List.mem_cons_of_mem file hg))
    rw [hrec, storeGet_storePut_ne _ _ _ _ (hk file (List.mem_cons_self file rest))]

/-- C9 as amended: on a bound store, `uploadDBDocumentMedia` succeeds and
writes each file (with pairwise distinct names) to the key
`collection/id/fileName`, with content type `image/` followed by the segment
of the file name after its first dot (the literal text `undefined` when the
name has no dot); only for single-extension names is that the final
extension. -/
theorem claim_C9_uploadMedia_amended (b c : String) (hb : b ≠ "") (hc : c ≠ "")
    (st : Store) (id : String) (media : List DBFile) (now : Nat)
    (hnodup : (media.map (fun f => f.name)).Nodup) :
    ∃ st', uploadDBDocumentMedia ⟨some b, some c⟩ st id media now = .ok st'
      ∧ ∀ f ∈ media,
          storeGet st' (c ++ "/" ++ (id ++ "/" ++ f.name))
            = some { content := f.content,
                     contentType := some ("image/" ++ jsExtIdx1 f.name),
                     lastModified := now } := by
  have hb' : optTruthy (some b) = true := by simp [optTruthy, hb]
  have hc' : optTruthy (some c) = true := by simp [optTruthy, hc]
  induction media generalizing st with
  | nil => exact ⟨st, rfl, by intro f hf; simp at hf⟩
  | cons file rest ih =>
    have hnodup' : (rest.map (fun f => f.name)).Nodup := by
      simpa using hnodup.of_cons
    have hnotin : file.name ∉ rest.map (fun f => f.name) := by
      have := hnodup
      rw [List.map_cons, List.nodup_cons] at this
      exact this.1
    obtain ⟨st', hok, hall⟩ := ih
        (storePut st (c ++ "/" ++ (id ++ "/" ++ file.name))
          { content := file.content,
            contentType := some ("image/" ++ jsExtIdx1 file.name),
            lastModified := now })
        hnodup'
    refine ⟨st', ?_, ?_⟩
    · rw [uploadDBDocumentMedia]
      simp only [uploadDBCollectionMedia, hb', hc', if_true]
      exact hok
    · intro f hf
      rcases List.mem_cons.mp hf with rfl | hf'
      · have hpres : storeGet st' (c ++ "/" ++ (id ++ "/" ++ f.name))
            = storeGet (storePut st (c ++ "/" ++ (id ++ "/" ++ f.name))
                { content := f.content,
                  contentType := some ("image/" ++ jsExtIdx1 f.name),
                  lastModified := now })
              (c ++ "/" ++ (id ++ "/" ++ f.name)) := by
          apply uploadMedia_preserve b c hb hc id now rest _ _ hok
          intro g hg hkey
          apply hnotin
          have hname : g.name = f.name := by
            have hdata := congrArg String.data hkey
            simp only [String.data_append] at hdata
            have := List.append_cancel_left hdata
            have := List.append_cancel_left this
            exact String.ext this
          rw [← hname]
          exact List.mem_map_of_mem (fun f => f.name) hg
        rw [hpres, storeGet_storePut_self]
      · exact hall f hf'

theorem claim_C9_witness :
    ("photo.png" : String) ≠ "doc.pdf"
    ∧ (∃ st', uploadDBDocumentMedia ⟨some "b", some "c"⟩ [] "doc"
          [{ name := "photo.png", content := "p" }, { name := "doc.pdf", content := "q" }] 5
        = .ok st'
      ∧ ∀ f ∈ [({ name := "photo.png", content := "p" } : DBFile),
               { name := "doc.pdf", content := "q" }],
          storeGet st' ("c" ++ "/" ++ ("doc" ++ "/" ++ f.name))
            = some { content := f.content,
                     contentType := some ("image/" ++ jsExtIdx1 f.name),
                     lastModified := 5 }) :=
  ⟨by decide,
    claim_C9_uploadMedia_amended "b" "c" (by decide) (by decide) [] "doc"
      [{ name := "photo.png", content := "p" }, { name := "doc.pdf", content := "q" }] 5
      (by decide)⟩
